import Mathlib

/-!
Verification development for the Imports Manager of the robotcode language
server (`imports_manager.py`).  The Python source is shallowly embedded:
pure fragments become Lean functions, fallible fragments return `Except` or
`Option`, and the stateful registry / dispatcher code is modelled by
explicit state passing over association lists.  Filesystem reads, writes
and subprocess results are supplied as explicit inputs so that every
control path of the source is represented by a value of the model.
-/

set_option maxRecDepth 8192
set_option synthInstance.maxSize 512

/-- Model of a `LibraryDoc` (and, structurally, a `VariablesDoc`): the
structured artifact produced by introspection.  The imports manager never
inspects its contents, so it is modelled as an opaque identifier. -/
structure LibraryDoc where
  specId : Nat
  deriving DecidableEq, Repr

/-- Model of the `LibraryMetaData` dataclass: identity plus freshness
descriptor persisted alongside each artifact.  `mtimes` is a Python dict
`path -> st_mtime_ns`, modelled as an association list. -/
structure LibraryMetaData where
  meta_version : String
  name : Option String
  member_name : Option String
  origin : Option String
  submodule_search_locations : Option (List String)
  by_path : Bool
  mtimes : Option (List (String × Nat)) := none
  deriving DecidableEq, Repr

/-- Python `dict` equality for the `mtimes` map: key sets coincide and every
key maps to the same value; insertion order is irrelevant. -/
def dictEqv (a b : List (String × Nat)) : Bool :=
  a.all (fun p => b.lookup p.1 == some p.2) && b.all (fun p => a.lookup p.1 == some p.2)

/-- Equality of two optional mtimes maps, with Python `dict` semantics. -/
def optDictEqv : Option (List (String × Nat)) → Option (List (String × Nat)) → Bool
  | none, none => true
  | some a, some b => dictEqv a b
  | _, _ => false

/-- Dataclass equality `saved_meta == meta` of two `LibraryMetaData` values:
field-by-field equality, where the `mtimes` field compares as a dict. -/
def metaEq (a b : LibraryMetaData) : Bool :=
  a.meta_version == b.meta_version && a.name == b.name && a.member_name == b.member_name
    && a.origin == b.origin && a.submodule_search_locations == b.submodule_search_locations
    && a.by_path == b.by_path && optDictEqv a.mtimes b.mtimes

/-- UTF-8 encoding of a single character (the bytes `str.encode('utf-8')`
produces for it). -/
def charUtf8 (c : Char) : List Nat :=
  let n := c.toNat
  if n < 128 then [n]
  else if n < 2048 then [192 + n / 64, 128 + n % 64]
  else if n < 65536 then [224 + n / 4096, 128 + n / 64 % 64, 128 + n % 64]
  else [240 + n / 262144, 128 + n / 4096 % 64, 128 + n / 64 % 64, 128 + n % 64]

/-- UTF-8 encoding of a string as a list of byte values. -/
def utf8Bytes (s : String) : List Nat :=
  s.data.foldr (fun c acc => charUtf8 c ++ acc) []

/-- One step of the Adler-32 checksum: fold a byte into the running pair
`(a, b)`, each kept below the modulus 65521. -/
def adler32Step (p : Nat × Nat) (byte : Nat) : Nat × Nat :=
  let a := (p.1 + byte) % 65521
  (a, (p.2 + a) % 65521)

/-- The `zlib.adler32` checksum of a byte sequence, starting from the
standard initial value `(a, b) = (1, 0)`. -/
def adler32 (bytes : List Nat) : Nat :=
  (bytes.foldl adler32Step (1, 0)).2 * 65536 + (bytes.foldl adler32Step (1, 0)).1

/-- Lowercase hexadecimal digit for a value below 16. -/
def hexDigit (n : Nat) : Char :=
  if n < 10 then Char.ofNat (48 + n) else Char.ofNat (87 + n)

/-- Fuel-driven accumulation of the minimal hexadecimal digit list of `n`,
most significant digit first. -/
def natHexDigitsAux : Nat → Nat → List Char → List Char
  | 0, _, acc => acc
  | fuel + 1, n, acc =>
    if n < 16 then hexDigit n :: acc
    else natHexDigitsAux fuel (n / 16) (hexDigit (n % 16) :: acc)

/-- Minimal lowercase hexadecimal digits of `n` (at least one digit). -/
def natHexDigits (n : Nat) : List Char :=
  natHexDigitsAux (n + 1) n []

/-- Python string formatting with format spec `08x`: minimal lowercase hex,
left-padded with zeros to a width of at least eight characters. -/
def pyHex08 (n : Nat) : String :=
  let ds := natHexDigits n
  String.mk (List.replicate (8 - ds.length) '0' ++ ds)

/-- Split a character list on a separator character, keeping empty groups
(the semantics of `String.splitOn` for a one-character separator). -/
def splitOnChar (sep : Char) : List Char → List (List Char)
  | [] => [[]]
  | c :: rest =>
    let r := splitOnChar sep rest
    if c = sep then [] :: r
    else
      match r with
      | g :: gs => (c :: g) :: gs
      | [] => [[c]]

/-- Join a list of strings with a separator (kernel-reducible
`String.intercalate`). -/
def joinWith (sep : String) : List String → String
  | [] => ""
  | [x] => x
  | x :: y :: ys => x ++ sep ++ joinWith sep (y :: ys)

/-- Whether a path string is absolute (starts with a slash). -/
def isAbsolutePath (s : String) : Bool :=
  match s.data with
  | '/' :: _ => true
  | _ => false

/-- Segments of a POSIX-style path, empty segments dropped. -/
def pathSegments (s : String) : List String :=
  ((splitOnChar '/' s.data).map String.mk).filter (fun c => c ≠ "")

/-- Model of `str(pathlib.Path(s).parent)` for POSIX-style paths. -/
def pathParent (s : String) : String :=
  let comps := (pathSegments s).dropLast
  if isAbsolutePath s then
    if comps = [] then "/" else "/" ++ joinWith "/" comps
  else
    if comps = [] then "." else joinWith "/" comps

/-- Model of `pathlib.Path(s).name`: the final path segment. -/
def pathFinalSegment (s : String) : String :=
  (pathSegments s).getLastD ""

/-- Model of `pathlib.Path(s).stem`: the final segment without its last
dot-suffix; a leading dot alone does not start a suffix. -/
def pathStem (s : String) : String :=
  let nm := pathFinalSegment s
  let parts := (splitOnChar '.' nm.data).map String.mk
  match parts with
  | [] => nm
  | [_] => nm
  | "" :: [_] => nm
  | _ => joinWith "." parts.dropLast

/-- Replacement of every dot by a slash, the effect of
`name.replace(".", "/")` on a dotted module name. -/
def dotsToSlashes (s : String) : String :=
  String.mk (s.data.map (fun c => if c = '.' then '/' else c))

/-- Model of the `LibraryMetaData.filepath_base` property.  A `ValueError`
(raised when neither branch can produce a base) is modelled as `none`. -/
def filepathBase (m : LibraryMetaData) : Option String :=
  if m.by_path then
    match m.origin with
    | some o => some (pyHex08 (adler32 (utf8Bytes (pathParent o))) ++ "_" ++ pathStem o)
    | none => none
  else
    match m.name with
    | some n =>
      some (dotsToSlashes n
        ++ (match m.member_name with
            | some mem => if mem = "" then "" else "." ++ mem
            | none => ""))
    | none => none

theorem adler32_foldl_bound (bytes : List Nat) :
    ∀ p : Nat × Nat, p.1 < 65521 → p.2 < 65521 →
      (bytes.foldl adler32Step p).1 < 65521 ∧ (bytes.foldl adler32Step p).2 < 65521 := by
  induction bytes with
  | nil => intro p h1 h2; exact ⟨h1, h2⟩
  | cons b bs ih =>
    intro p _ _
    simp only [List.foldl_cons]
    exact ih _ (Nat.mod_lt _ (by norm_num)) (Nat.mod_lt _ (by norm_num))

theorem adler32_lt (bytes : List Nat) : adler32 bytes < 2 ^ 32 := by
  have h := adler32_foldl_bound bytes (1, 0) (by norm_num) (by norm_num)
  unfold adler32
  omega

theorem natHexDigitsAux_length (k : Nat) :
    ∀ fuel n acc, n < 16 ^ k → 0 < k →
      (natHexDigitsAux fuel n acc).length ≤ k + acc.length := by
  induction k with
  | zero => intro fuel n acc _ hk; omega
  | succ k ih =>
    intro fuel n acc hn _
    match fuel with
    | 0 => simp [natHexDigitsAux]
    | fuel + 1 =>
      unfold natHexDigitsAux
      by_cases hsmall : n < 16
      · simp [hsmall]
        omega
      · simp [hsmall]
        have hk1 : 0 < k := by
          by_contra hc
          have : k = 0 := by omega
          subst this
          simp at hn
          omega
        have hdiv : n / 16 < 16 ^ k :=
          Nat.div_lt_of_lt_mul (by rw [pow_succ] at hn; omega)
        have := ih fuel (n / 16) (hexDigit (n % 16) :: acc) hdiv hk1
        simp at this ⊢
        omega

theorem natHexDigits_length_le (n : Nat) (h : n < 2 ^ 32) : (natHexDigits n).length ≤ 8 := by
  have h16 : n < 16 ^ 8 := lt_of_lt_of_eq h (by norm_num)
  have := natHexDigitsAux_length 8 (n + 1) n [] h16 (by norm_num)
  simpa [natHexDigits] using this

theorem pyHex08_length (n : Nat) (h : n < 2 ^ 32) : (pyHex08 n).length = 8 := by
  have hle := natHexDigits_length_le n h
  simp [pyHex08, String.length]
  omega

instance {ε α : Type} [DecidableEq ε] [DecidableEq α] : DecidableEq (Except ε α) := fun a b =>
  match a, b with
  | .error x, .error y =>
    if h : x = y then isTrue (by rw [h]) else isFalse (fun hc => by cases hc; exact h rfl)
  | .error _, .ok _ => isFalse (fun hc => by cases hc)
  | .ok _, .error _ => isFalse (fun hc => by cases hc)
  | .ok x, .ok y =>
    if h : x = y then isTrue (by rw [h]) else isFalse (fun hc => by cases hc; exact h rfl)

/-- Filesystem side effects performed by the cache-write phase of a build. -/
inductive FsOp where
  | mkdirp (path : String)
  | writeFile (path : String) (content : String)
  | renameFile (src dst : String)
  deriving DecidableEq, Repr

/-- Reasons a build can fail (exceptions that escape `_get_libdoc`). -/
inductive BuildErr where
  | timeout
  | introspection
  | metaError
  | valueError
  deriving DecidableEq, Repr

/-- The environment a single `_get_libdoc` run observes: outcome of the fresh
fingerprint, state of the on-disk cache pair, outcome of the subprocess
introspection, and whether each artifact write would succeed.  Every
exception-prone step is represented by an `Except`/`Bool` input. -/
structure BuildEnv where
  metaResult : Except BuildErr (Option LibraryMetaData)
  metaFileRead : Option (Except Unit LibraryMetaData)
  specFileRead : Except Unit LibraryDoc
  subprocessResult : Except BuildErr LibraryDoc
  writeSpecOk : Bool
  writeMetaOk : Bool
  deriving DecidableEq, Repr

/-- Outcome of one `_get_libdoc` run: the value returned (or the exception
propagated) to the caller, whether the introspection subprocess was
invoked, and the successful filesystem writes, in order. -/
structure BuildOutcome where
  result : Except BuildErr LibraryDoc
  subprocessInvoked : Bool
  fsTrace : List FsOp
  deriving DecidableEq, Repr

/-- Placeholder for the `as_json` serialization of a doc; the claims inspect
only which paths get written, not the serialized bytes. -/
def encodeDoc (d : LibraryDoc) : String :=
  pyHex08 d.specId

/-- Placeholder for the `as_json` serialization of a meta value. -/
def encodeMeta (m : LibraryMetaData) : String :=
  m.meta_version

/-- Path of the `<base>.spec.json` artifact below the cache directory. -/
def specFilePath (cachePath base : String) : String :=
  cachePath ++ "/" ++ base ++ ".spec.json"

/-- Path of the `<base>.meta.json` artifact below the cache directory. -/
def metaFilePath (cachePath base : String) : String :=
  cachePath ++ "/" ++ base ++ ".meta.json"

/-- The cache-read phase of `_get_libdoc` (meta file exists, parses, equals
the fresh meta, and the spec file loads): `some doc` is an early return of
the cached doc, `none` falls through to the subprocess build.  Read or
parse exceptions of either file are caught by the surrounding handler and
also fall through. -/
def cacheLookup (m : LibraryMetaData) (metaFileRead : Option (Except Unit LibraryMetaData))
    (specFileRead : Except Unit LibraryDoc) : Option LibraryDoc :=
  match metaFileRead with
  | none => none
  | some (.error _) => none
  | some (.ok saved) =>
    if metaEq saved m then
      match specFileRead with
      | .ok d => some d
      | .error _ => none
    else none

/-- The subprocess phase of `_get_libdoc` followed by the cache-write phase.
An introspection failure propagates.  With a cacheable meta, the parent
directory is created, the spec file is written first via `write_text`, then
the meta file; a failing spec write raises, and the surrounding handler
swallows the write exception so the fresh doc is still returned. -/
def buildViaSubprocess (cachePath : String) (mb : Option (LibraryMetaData × String))
    (env : BuildEnv) : BuildOutcome :=
  match env.subprocessResult with
  | .error e => ⟨.error e, true, []⟩
  | .ok d =>
    match mb with
    | none => ⟨.ok d, true, []⟩
    | some (m, base) =>
      ⟨.ok d, true,
        FsOp.mkdirp cachePath ::
          (if env.writeSpecOk then
            FsOp.writeFile (specFilePath cachePath base) (encodeDoc d) ::
              (if env.writeMetaOk then [FsOp.writeFile (metaFilePath cachePath base) (encodeMeta m)]
               else [])
          else [])⟩

/-- Model of the `_get_libdoc` closures of `get_libdoc_for_library_import`
and `get_libdoc_for_variables_import` (they are structurally identical; the
cache directory is a parameter): fresh fingerprint, cache probe, subprocess
fallback, artifact writes.  An exception in the meta computation or in
`filepath_base` propagates; cache I/O exceptions never do. -/
def getLibdocBuild (cachePath : String) (env : BuildEnv) : BuildOutcome :=
  match env.metaResult with
  | .error e => ⟨.error e, false, []⟩
  | .ok none => buildViaSubprocess cachePath none env
  | .ok (some m) =>
    match filepathBase m with
    | none => ⟨.error .valueError, false, []⟩
    | some base =>
      match cacheLookup m env.metaFileRead env.specFileRead with
      | some d => ⟨.ok d, false, []⟩
      | none => buildViaSubprocess cachePath (some (m, base)) env

/-- Sanity condition on a build environment: whenever the fresh meta is
present, its `filepath_base` is defined (true for every meta produced by
`get_library_meta` / `get_variables_meta`). -/
def metaBaseOk (env : BuildEnv) : Bool :=
  match env.metaResult with
  | .ok (some m) => (filepathBase m).isSome
  | _ => true

/-- C2: for a `by_path` meta with an origin, `filepath_base` is the
eight-hex-character Adler-32 of the origin's parent path followed by an
underscore and the origin's stem; for a module meta with a name it is the
dotted name with dots replaced by slashes, suffixed by `.member_name` when
the member name is non-empty; and the base is a pure function of the meta
(equal metas give equal bases). -/
theorem C2_filepath_base_characterization :
    (∀ (m : LibraryMetaData) (o : String), m.by_path = true → m.origin = some o →
        filepathBase m
            = some (pyHex08 (adler32 (utf8Bytes (pathParent o))) ++ "_" ++ pathStem o)
          ∧ (pyHex08 (adler32 (utf8Bytes (pathParent o)))).length = 8)
  ∧ (∀ (m : LibraryMetaData) (n mem : String), m.by_path = false → m.name = some n →
        m.member_name = some mem → mem ≠ "" →
        filepathBase m = some (dotsToSlashes n ++ ("." ++ mem)))
  ∧ (∀ (m : LibraryMetaData) (n : String), m.by_path = false → m.name = some n →
        (m.member_name = none ∨ m.member_name = some "") →
        filepathBase m = some (dotsToSlashes n))
  ∧ (∀ a b : LibraryMetaData, metaEq a b = true → filepathBase a = filepathBase b) := by
  refine ⟨?_, ?_, ?_, ?_⟩
  · intro m o h1 h2
    exact ⟨by simp [filepathBase, h1, h2], pyHex08_length _ (adler32_lt _)⟩
  · intro m n mem h1 h2 h3 h4
    simp [filepathBase, h1, h2, h3, h4]
  · intro m n h1 h2 h3
    cases h3 with
    | inl h => simp [filepathBase, h1, h2, h]
    | inr h => simp [filepathBase, h1, h2, h]
  · intro a b h
    simp only [metaEq, Bool.and_eq_true, beq_iff_eq] at h
    obtain ⟨⟨⟨⟨⟨⟨_, hname⟩, hmem⟩, horig⟩, _⟩, hbp⟩, _⟩ := h
    simp only [filepathBase, hname, hmem, horig, hbp]

/-- Witness for C2 at the concrete path-based meta of scenario S3. -/
theorem C2_filepath_base_characterization_witness :
    filepathBase
        { meta_version := "v1", name := some "My", member_name := none,
          origin := some "C:/some dir/My.py", submodule_search_locations := none,
          by_path := true, mtimes := none }
        = some (pyHex08 (adler32 (utf8Bytes (pathParent "C:/some dir/My.py")))
            ++ "_" ++ pathStem "C:/some dir/My.py")
      ∧ (pyHex08 (adler32 (utf8Bytes (pathParent "C:/some dir/My.py")))).length = 8 :=
  C2_filepath_base_characterization.1
    { meta_version := "v1", name := some "My", member_name := none,
      origin := some "C:/some dir/My.py", submodule_search_locations := none,
      by_path := true, mtimes := none }
    "C:/some dir/My.py" rfl rfl

/-- C1: for every library build, the on-disk spec doc is returned with no
subprocess invocation exactly when the fresh meta is present, the stored
meta file exists and parses, the parsed meta equals the fresh meta in every
field (with the full mtimes map compared as a dict), and the spec file
loads; any read or parse error of either cache file instead leads to a
subprocess build. -/
theorem C1_cache_hit_iff (cachePath : String) (env : BuildEnv)
    (hbase : metaBaseOk env = true) :
    (((getLibdocBuild cachePath env).subprocessInvoked = false
        ∧ ∃ d, (getLibdocBuild cachePath env).result = .ok d ∧ env.specFileRead = .ok d)
      ↔ (∃ m saved d, env.metaResult = .ok (some m)
          ∧ env.metaFileRead = some (.ok saved) ∧ metaEq saved m = true
          ∧ env.specFileRead = .ok d))
  ∧ (∀ m, env.metaResult = .ok (some m) → env.metaFileRead = some (.error ()) →
      (getLibdocBuild cachePath env).subprocessInvoked = true)
  ∧ (∀ m saved, env.metaResult = .ok (some m) → env.metaFileRead = some (.ok saved) →
      metaEq saved m = true → env.specFileRead = .error () →
      (getLibdocBuild cachePath env).subprocessInvoked = true) := by
  refine ⟨⟨?_, ?_⟩, ?_, ?_⟩
  · rintro ⟨hsub, d, hres, hspec⟩
    cases hmr : env.metaResult with
    | error e =>
      rw [show getLibdocBuild cachePath env = ⟨.error e, false, []⟩ by
        simp [getLibdocBuild, hmr]] at hres
      cases hres
    | ok mo =>
      cases mo with
      | none =>
        have : (getLibdocBuild cachePath env).subprocessInvoked = true := by
          simp [getLibdocBuild, hmr, buildViaSubprocess]
          cases hsp : env.subprocessResult <;> simp
        rw [this] at hsub
        cases hsub
      | some m =>
        have hbs : (filepathBase m).isSome := by
          simpa [metaBaseOk, hmr] using hbase
        obtain ⟨base, hb⟩ := Option.isSome_iff_exists.mp hbs
        cases hcl : cacheLookup m env.metaFileRead env.specFileRead with
        | none =>
          have : (getLibdocBuild cachePath env).subprocessInvoked = true := by
            simp [getLibdocBuild, hmr, hb, hcl, buildViaSubprocess]
            cases hsp : env.subprocessResult <;> simp
          rw [this] at hsub
          cases hsub
        | some d2 =>
          have hres2 : (getLibdocBuild cachePath env).result = .ok d2 := by
            simp [getLibdocBuild, hmr, hb, hcl]
          rw [hres2] at hres
          cases hres
          unfold cacheLookup at hcl
          cases hmf : env.metaFileRead with
          | none => rw [hmf] at hcl; cases hcl
          | some r =>
            cases r with
            | error e => rw [hmf] at hcl; cases hcl
            | ok saved =>
              rw [hmf] at hcl
              by_cases heq : metaEq saved m = true
              · refine ⟨m, saved, d, rfl, rfl, heq, ?_⟩
                simp [heq] at hcl
                cases hspr : env.specFileRead with
                | error e => rw [hspr] at hcl; cases hcl
                | ok d3 => rw [hspr] at hcl; cases hcl; rfl
              · simp [heq] at hcl
  · rintro ⟨m, saved, d, hmr, hmf, heq, hspec⟩
    have hbs : (filepathBase m).isSome := by
      simpa [metaBaseOk, hmr] using hbase
    obtain ⟨base, hb⟩ := Option.isSome_iff_exists.mp hbs
    have hcl : cacheLookup m env.metaFileRead env.specFileRead = some d := by
      simp [cacheLookup, hmf, heq, hspec]
    refine ⟨?_, d, ?_, hspec⟩ <;> simp [getLibdocBuild, hmr, hb, hcl]
  · intro m hmr hmf
    have hbs : (filepathBase m).isSome := by
      simpa [metaBaseOk, hmr] using hbase
    obtain ⟨base, hb⟩ := Option.isSome_iff_exists.mp hbs
    have hcl : cacheLookup m env.metaFileRead env.specFileRead = none := by
      simp [cacheLookup, hmf]
    simp [getLibdocBuild, hmr, hb, hcl, buildViaSubprocess]
    cases hsp : env.subprocessResult <;> simp
  · intro m saved hmr hmf heq hspec
    have hbs : (filepathBase m).isSome := by
      simpa [metaBaseOk, hmr] using hbase
    obtain ⟨base, hb⟩ := Option.isSome_iff_exists.mp hbs
    have hcl : cacheLookup m env.metaFileRead env.specFileRead = none := by
      simp [cacheLookup, hmf, heq, hspec]
    simp [getLibdocBuild, hmr, hb, hcl, buildViaSubprocess]
    cases hsp : env.subprocessResult <;> simp

/-- Fresh meta used in witnesses: a module library with two fingerprinted
files. -/
def c1FreshMeta : LibraryMetaData :=
  { meta_version := "v1", name := some "robot.libraries.OperatingSystem", member_name := none,
    origin := some "/p/OperatingSystem.py",
    submodule_search_locations := some ["/p/robot/libraries"], by_path := false,
    mtimes := some [("/p/OperatingSystem.py", 5), ("/p/robot/libraries/a.py", 6)] }

/-- Stored meta whose mtimes dict lists the same entries in another order:
equal to `c1FreshMeta` under dict comparison. -/
def c1SavedMeta : LibraryMetaData :=
  { c1FreshMeta with mtimes := some [("/p/robot/libraries/a.py", 6), ("/p/OperatingSystem.py", 5)] }

/-- Build environment with a byte-equivalent stored meta and a loadable
stored spec: a cache hit. -/
def c1Env : BuildEnv :=
  { metaResult := .ok (some c1FreshMeta), metaFileRead := some (.ok c1SavedMeta),
    specFileRead := .ok ⟨3⟩, subprocessResult := .ok ⟨9⟩,
    writeSpecOk := true, writeMetaOk := true }

/-- Witness for C1 at a concrete cache-hit environment. -/
theorem C1_cache_hit_iff_witness :
    (((getLibdocBuild "/c" c1Env).subprocessInvoked = false
        ∧ ∃ d, (getLibdocBuild "/c" c1Env).result = .ok d ∧ c1Env.specFileRead = .ok d)
      ↔ (∃ m saved d, c1Env.metaResult = .ok (some m)
          ∧ c1Env.metaFileRead = some (.ok saved) ∧ metaEq saved m = true
          ∧ c1Env.specFileRead = .ok d))
  ∧ (∀ m, c1Env.metaResult = .ok (some m) → c1Env.metaFileRead = some (.error ()) →
      (getLibdocBuild "/c" c1Env).subprocessInvoked = true)
  ∧ (∀ m saved, c1Env.metaResult = .ok (some m) → c1Env.metaFileRead = some (.ok saved) →
      metaEq saved m = true → c1Env.specFileRead = .error () →
      (getLibdocBuild "/c" c1Env).subprocessInvoked = true) :=
  C1_cache_hit_iff "/c" c1Env (by decide)

/-- C5: cache I/O exceptions never propagate out of a build: a failing meta
read is a cache miss (the subprocess runs and its doc is returned), a
failing spec read after a meta match is likewise a miss, and the write
phase has no influence on the value returned to the caller. -/
theorem C5_cache_io_never_fatal (cachePath : String) (env : BuildEnv) :
    (∀ m d, env.metaResult = .ok (some m) → (filepathBase m).isSome →
        env.metaFileRead = some (.error ()) → env.subprocessResult = .ok d →
        (getLibdocBuild cachePath env).result = .ok d
          ∧ (getLibdocBuild cachePath env).subprocessInvoked = true)
  ∧ (∀ m saved d, env.metaResult = .ok (some m) → (filepathBase m).isSome →
        env.metaFileRead = some (.ok saved) → metaEq saved m = true →
        env.specFileRead = .error () → env.subprocessResult = .ok d →
        (getLibdocBuild cachePath env).result = .ok d
          ∧ (getLibdocBuild cachePath env).subprocessInvoked = true)
  ∧ (∀ ws wm,
        (getLibdocBuild cachePath { env with writeSpecOk := ws, writeMetaOk := wm }).result
            = (getLibdocBuild cachePath env).result
          ∧ (getLibdocBuild cachePath { env with writeSpecOk := ws, writeMetaOk := wm }).subprocessInvoked
            = (getLibdocBuild cachePath env).subprocessInvoked) := by
  refine ⟨?_, ?_, ?_⟩
  · intro m d hmr hbs hmf hsp
    obtain ⟨base, hb⟩ := Option.isSome_iff_exists.mp hbs
    have hcl : cacheLookup m env.metaFileRead env.specFileRead = none := by simp [cacheLookup, hmf]
    constructor <;> simp [getLibdocBuild, hmr, hb, hcl, buildViaSubprocess, hsp]
  · intro m saved d hmr hbs hmf heq hspec hsp
    obtain ⟨base, hb⟩ := Option.isSome_iff_exists.mp hbs
    have hcl : cacheLookup m env.metaFileRead env.specFileRead = none := by simp [cacheLookup, hmf, heq, hspec]
    constructor <;> simp [getLibdocBuild, hmr, hb, hcl, buildViaSubprocess, hsp]
  · intro ws wm
    cases hmr : env.metaResult with
    | error e => constructor <;> simp [getLibdocBuild, hmr]
    | ok mo =>
      cases mo with
      | none =>
        cases hsp : env.subprocessResult <;>
          constructor <;> simp [getLibdocBuild, hmr, buildViaSubprocess, hsp]
      | some m =>
        cases hb : filepathBase m with
        | none => constructor <;> simp [getLibdocBuild, hmr, hb]
        | some base =>
          cases hclm : cacheLookup m env.metaFileRead env.specFileRead with
          | some d => constructor <;> simp [getLibdocBuild, hmr, hb, hclm]
          | none =>
            cases hsp : env.subprocessResult <;>
              constructor <;> simp [getLibdocBuild, hmr, hb, hclm, buildViaSubprocess, hsp]

/-- Build environment whose meta file read raises: used as the C5 witness
input. -/
def c5Env : BuildEnv :=
  { metaResult := .ok (some c1FreshMeta), metaFileRead := some (.error ()),
    specFileRead := .error (), subprocessResult := .ok ⟨4⟩,
    writeSpecOk := false, writeMetaOk := true }

/-- Witness for C5 at a concrete environment with a failing meta read. -/
theorem C5_cache_io_never_fatal_witness :
    (getLibdocBuild "/c" c5Env).result = .ok ⟨4⟩
      ∧ (getLibdocBuild "/c" c5Env).subprocessInvoked = true :=
  (C5_cache_io_never_fatal "/c" c5Env).1 c1FreshMeta ⟨4⟩ (by decide) (by decide) (by decide)
    (by decide)

/-- An artifact at `dst` is written atomically in a trace when the trace
never writes `dst` directly and installs it via a rename from a temporary
file. -/
def atomicWriteOf (trace : List FsOp) (dst : String) : Prop :=
  (∀ c, FsOp.writeFile dst c ∉ trace) ∧ ∃ tmp, FsOp.renameFile tmp dst ∈ trace

/-- Concrete path-based meta used for the C4 input. -/
def c4Meta : LibraryMetaData :=
  { meta_version := "v1", name := some "Lib", member_name := none,
    origin := some "/w/Lib.py", submodule_search_locations := none, by_path := true,
    mtimes := some [("/w/Lib.py", 5)] }

/-- Build environment for C4: cold cache, successful subprocess, both
writes succeed. -/
def c4Env : BuildEnv :=
  { metaResult := .ok (some c4Meta), metaFileRead := none, specFileRead := .error (),
    subprocessResult := .ok ⟨7⟩, writeSpecOk := true, writeMetaOk := true }

/-- C4 counterexample: on a concrete successful build, the spec artifact is
installed by a direct `write_text` to its final path (and no rename of a
temporary file occurs), so the writes are not atomic as the claim states. -/
theorem C4_counterexample :
    (getLibdocBuild "/c" c4Env).fsTrace
        = [FsOp.mkdirp "/c",
           FsOp.writeFile "/c/00d700a7_Lib.spec.json" (encodeDoc ⟨7⟩),
           FsOp.writeFile "/c/00d700a7_Lib.meta.json" (encodeMeta c4Meta)]
      ∧ ¬ atomicWriteOf (getLibdocBuild "/c" c4Env).fsTrace "/c/00d700a7_Lib.spec.json" := by
  constructor
  · decide
  · intro h
    exact h.1 (encodeDoc ⟨7⟩) (by decide)

/-- C4 amended: when a build persists its artifacts, the spec file is
written before the meta file (each by a direct full-file `write_text`, not
by a temp-file-plus-rename), and if the spec write fails the meta file is
not written; the fresh doc is returned either way. -/
theorem C4_spec_written_before_meta (cachePath : String) (env : BuildEnv)
    (m : LibraryMetaData) (base : String) (d : LibraryDoc)
    (hm : env.metaResult = .ok (some m)) (hb : filepathBase m = some base)
    (hmiss : cacheLookup m env.metaFileRead env.specFileRead = none)
    (hs : env.subprocessResult = .ok d) :
    (env.writeSpecOk = true → env.writeMetaOk = true →
      (getLibdocBuild cachePath env).fsTrace
        = [FsOp.mkdirp cachePath,
           FsOp.writeFile (specFilePath cachePath base) (encodeDoc d),
           FsOp.writeFile (metaFilePath cachePath base) (encodeMeta m)])
  ∧ (env.writeSpecOk = false →
      ∀ c, FsOp.writeFile (metaFilePath cachePath base) c ∉ (getLibdocBuild cachePath env).fsTrace)
  ∧ (getLibdocBuild cachePath env).result = .ok d := by
  refine ⟨?_, ?_, ?_⟩
  · intro hw1 hw2
    simp [getLibdocBuild, hm, hb, hmiss, buildViaSubprocess, hs, hw1, hw2]
  · intro hw c
    simp [getLibdocBuild, hm, hb, hmiss, buildViaSubprocess, hs, hw]
  · simp [getLibdocBuild, hm, hb, hmiss, buildViaSubprocess, hs]

/-- Witness for the amended C4 at the concrete C4 environment. -/
theorem C4_spec_written_before_meta_witness :
    (c4Env.writeSpecOk = true → c4Env.writeMetaOk = true →
      (getLibdocBuild "/c" c4Env).fsTrace
        = [FsOp.mkdirp "/c",
           FsOp.writeFile (specFilePath "/c" "00d700a7_Lib") (encodeDoc ⟨7⟩),
           FsOp.writeFile (metaFilePath "/c" "00d700a7_Lib") (encodeMeta c4Meta)])
  ∧ (c4Env.writeSpecOk = false →
      ∀ c, FsOp.writeFile (metaFilePath "/c" "00d700a7_Lib") c ∉ (getLibdocBuild "/c" c4Env).fsTrace)
  ∧ (getLibdocBuild "/c" c4Env).result = .ok ⟨7⟩ :=
  C4_spec_written_before_meta "/c" c4Env c4Meta "00d700a7_Lib" ⟨7⟩ (by decide) (by decide)
    (by decide) (by decide)

/-- Model of a `ModuleSpec` as produced by `get_module_spec`. -/
structure ModuleSpec where
  name : String
  member_name : Option String
  origin : Option String
  submodule_search_locations : Option (List String)
  deriving DecidableEq, Repr

/-- The environment a `get_library_meta` / `get_variables_meta` call
observes: the path-resolution outcome, the path predicates, module-spec
lookup, `stat` results per file, the recursive `**/*.py` listing per
search location, and the configured ignore patterns (folded into one
predicate applied to a name or origin). -/
structure FingerprintEnv where
  metaVersion : String
  findResult : Except Unit String
  isByPath : String → Bool
  pathExists : String → Bool
  moduleSpecOf : String → Option ModuleSpec
  statMtimeNs : String → Except Unit Nat
  pyFilesUnder : String → List String
  patternMatches : String → Bool

/-- The identity phase of the meta computation: a path-literal import with
an existing file gives a `by_path` meta; a module import with a known
origin gives a module meta; otherwise no identity is established. -/
def metaCandidate (env : FingerprintEnv) (importName : String) : Option LibraryMetaData :=
  if env.isByPath importName then
    if env.pathExists importName then
      some ⟨env.metaVersion, some (pathStem importName), none, some importName, none, true, none⟩
    else none
  else
    match env.moduleSpecOf importName with
    | some spec =>
      match spec.origin with
      | some _ =>
        some ⟨env.metaVersion, some spec.name, spec.member_name, spec.origin,
          spec.submodule_search_locations, false, none⟩
      | none => none
    | none => none

/-- Whether any configured ignore pattern matches the candidate's name or
origin. -/
def ignoredMatches (env : FingerprintEnv) (r : LibraryMetaData) : Bool :=
  (match r.name with
   | some n => env.patternMatches n
   | none => false)
  || (match r.origin with
      | some o => env.patternMatches o
      | none => false)

/-- Insertion into a Python dict modelled as an association list: an
existing key keeps its position and gets the new value, a new key is
appended. -/
def dictInsert (d : List (String × Nat)) (k : String) (v : Nat) : List (String × Nat) :=
  if (d.lookup k).isSome then d.map (fun p => if p.1 = k then (k, v) else p)
  else d ++ [(k, v)]

/-- Stat every file of a list into a dict, failing on the first raising
`stat` call (the whole comprehension raises). -/
def statFilesInto (env : FingerprintEnv) : List String → List (String × Nat) →
    Except Unit (List (String × Nat))
  | [], acc => .ok acc
  | f :: fs, acc =>
    match env.statMtimeNs f with
    | .ok t => statFilesInto env fs (dictInsert acc f t)
    | .error e => .error e

/-- The mtimes phase of the meta computation: stat the origin, then every
`*.py` file below each submodule search location (when that list is truthy,
i.e. present and non-empty), merging into the dict.  Any `stat` failure
raises. -/
def addMtimes (env : FingerprintEnv) (r : LibraryMetaData) : Except Unit LibraryMetaData :=
  let step1 : Except Unit LibraryMetaData :=
    match r.origin with
    | some o =>
      match env.statMtimeNs o with
      | .ok t => .ok { r with mtimes := some [(o, t)] }
      | .error e => .error e
    | none => .ok r
  match step1 with
  | .error e => .error e
  | .ok r1 =>
    match r1.submodule_search_locations with
    | some (loc :: locs) =>
      match statFilesInto env (((loc :: locs).map env.pyFilesUnder).foldr (· ++ ·) []) [] with
      | .ok newEntries =>
        .ok { r1 with
          mtimes := some (newEntries.foldl (fun d p => dictInsert d p.1 p.2) (r1.mtimes.getD [])) }
      | .error e => .error e
    | _ => .ok r1

/-- Model of `ImportsManager.get_library_meta`: identity, ignore check,
mtimes.  An exception after resolution is swallowed into
`(None, import_name)`; a failing resolution leaves `import_name` unbound,
so the final `return None, import_name` itself raises, modelled as
`.error`. -/
def getLibraryMeta (env : FingerprintEnv) : Except Unit (Option LibraryMetaData × String) :=
  match env.findResult with
  | .error e => .error e
  | .ok importName =>
    match metaCandidate env importName with
    | none => .ok (none, importName)
    | some r =>
      if ignoredMatches env r then .ok (none, importName)
      else
        match addMtimes env r with
        | .ok r2 => .ok (some r2, importName)
        | .error _ => .ok (none, importName)

/-- Model of `ImportsManager.get_variables_meta`: identical to the library
variant except that its exception path returns `(None, name)` with the
original unresolved `name` (the source's final `return None, name`), so it
never raises. -/
def getVariablesMeta (env : FingerprintEnv) (name : String) : Option LibraryMetaData × String :=
  match env.findResult with
  | .error _ => (none, name)
  | .ok importName =>
    match metaCandidate env importName with
    | none => (none, importName)
    | some r =>
      if ignoredMatches env r then (none, importName)
      else
        match addMtimes env r with
        | .ok r2 => (some r2, importName)
        | .error _ => (none, name)

/-- Environment for the C6 counterexample: resolution succeeds with a
path-based identity, no ignore pattern matches, and the `stat` of the
origin raises. -/
def c6Env : FingerprintEnv :=
  { metaVersion := "v1", findResult := .ok "/r/resolved.py",
    isByPath := fun _ => true, pathExists := fun _ => true,
    moduleSpecOf := fun _ => none, statMtimeNs := fun _ => .error (),
    pyFilesUnder := fun _ => [], patternMatches := fun _ => false }

/-- C6 counterexample: when fingerprinting fails after a successful
resolution, `get_variables_meta` returns `(None, name)` with the original
unresolved name, not `(None, resolved_name)` as the claim states. -/
theorem C6_counterexample :
    c6Env.findResult = .ok "/r/resolved.py"
      ∧ getVariablesMeta c6Env "NAME" = (none, "NAME")
      ∧ getVariablesMeta c6Env "NAME" ≠ (none, "/r/resolved.py") :=
  ⟨rfl, by decide, by decide⟩

/-- C6 amended: with a successful resolution to `importName`, both meta
functions return `(None, importName)` when an ignore pattern matches the
candidate's name or origin and when no identity can be established; on an
error during fingerprinting `get_library_meta` returns
`(None, importName)` while `get_variables_meta` returns `(None, name)`
with the original name; and an uncacheable import writes no artifact files
while the build still returns the fresh doc. -/
theorem C6_ignored_imports_uncached (env : FingerprintEnv) (name importName : String)
    (hfind : env.findResult = .ok importName) :
    (∀ r, metaCandidate env importName = some r → ignoredMatches env r = true →
        getLibraryMeta env = .ok (none, importName)
          ∧ getVariablesMeta env name = (none, importName))
  ∧ (metaCandidate env importName = none →
        getLibraryMeta env = .ok (none, importName)
          ∧ getVariablesMeta env name = (none, importName))
  ∧ (∀ r, metaCandidate env importName = some r → ignoredMatches env r = false →
        addMtimes env r = .error () →
        getLibraryMeta env = .ok (none, importName)
          ∧ getVariablesMeta env name = (none, name))
  ∧ (∀ (cachePath : String) (benv : BuildEnv) (d : LibraryDoc),
        benv.metaResult = .ok none → benv.subprocessResult = .ok d →
        getLibdocBuild cachePath benv = ⟨.ok d, true, []⟩) := by
  refine ⟨?_, ?_, ?_, ?_⟩
  · intro r hc hig
    constructor <;> simp [getLibraryMeta, getVariablesMeta, hfind, hc, hig]
  · intro hc
    constructor <;> simp [getLibraryMeta, getVariablesMeta, hfind, hc]
  · intro r hc hig herr
    constructor <;> simp [getLibraryMeta, getVariablesMeta, hfind, hc, hig, herr]
  · intro cachePath benv d hm hs
    simp [getLibdocBuild, hm, buildViaSubprocess, hs]

/-- Environment for the C6 witness: a path import whose stem matches an
ignore pattern. -/
def c6IgnoreEnv : FingerprintEnv :=
  { metaVersion := "v1", findResult := .ok "/w/Foo.py",
    isByPath := fun _ => true, pathExists := fun _ => true,
    moduleSpecOf := fun _ => none, statMtimeNs := fun _ => .ok 1,
    pyFilesUnder := fun _ => [], patternMatches := fun s => s == "Foo" }

/-- Witness for the amended C6 at a concrete ignored path import. -/
theorem C6_ignored_imports_uncached_witness :
    getLibraryMeta c6IgnoreEnv = .ok (none, "/w/Foo.py")
      ∧ getVariablesMeta c6IgnoreEnv "Foo" = (none, "/w/Foo.py") :=
  (C6_ignored_imports_uncached c6IgnoreEnv "Foo" "/w/Foo.py" rfl).1
    ⟨"v1", some "Foo", none, some "/w/Foo.py", none, true, none⟩ (by decide) (by decide)

/-- Key of a library registry entry: resolved source or name plus resolved
arguments. -/
structure LibKey where
  name : String
  args : List String
  deriving DecidableEq, Repr

/-- Key of a resource registry entry: the resolved source. -/
structure ResKey where
  name : String
  deriving DecidableEq, Repr

/-- Key of a variables registry entry. -/
structure VarKey where
  name : String
  args : List String
  deriving DecidableEq, Repr

/-- Model of a `_LibrariesEntry`.  `doc` is the `_lib_doc` field;
`watcherCount` the number of owned file-watcher subscriptions;
`referenceCount` the number of live sentinels in the weak reference set;
`watchedRoots` abstracts the resolved root directories of the
`check_file_changed` containment tests (submodule search locations, origin
parent, source parent, or python path); `entryId` models Python object
identity. -/
structure LibEntry where
  doc : Option LibraryDoc
  watcherCount : Nat
  referenceCount : Nat
  watchedRoots : List String
  entryId : Nat
  deriving DecidableEq, Repr

/-- Model of a `_ResourcesEntry`: `document` is the uri of the loaded
document (`none` when invalidated), `doc` the cached `_lib_doc`, and
`namespaceDoc` the doc that `get_libdoc` would (re)compute from the live
namespace. -/
structure ResEntry where
  document : Option String
  doc : Option LibraryDoc
  namespaceDoc : LibraryDoc
  watcherCount : Nat
  referenceCount : Nat
  entryId : Nat
  deriving DecidableEq, Repr

/-- Model of a `_VariablesEntry`: `source` is the doc's source path used by
the same-file test of `check_file_changed`. -/
structure VarEntry where
  doc : Option LibraryDoc
  source : Option String
  watcherCount : Nat
  referenceCount : Nat
  entryId : Nat
  deriving DecidableEq, Repr

/-- Start methods of the Python `multiprocessing` context. -/
inductive StartMethod
  | spawn
  | fork
  | forkserver
  deriving DecidableEq, Repr

/-- Configuration of the executor a build uses for its introspection
subprocess. -/
structure ExecutorConfig where
  maxWorkers : Nat
  startMethod : StartMethod
  timeoutSeconds : Nat
  shutdownAfterBuild : Bool
  deriving DecidableEq, Repr

/-- The build timeout constant of the source. -/
def LOAD_LIBRARY_TIME_OUT : Nat := 30

/-- Transcription of the executor set-up of the subprocess phase of
`_get_libdoc` (both the library and the variables variant): a fresh
`ProcessPoolExecutor(max_workers=1, mp_context=spawn)`, a
`result(LOAD_LIBRARY_TIME_OUT)` deadline, and a shutdown in the `finally`
block. -/
def libraryBuildExecutorConfig : ExecutorConfig :=
  { maxWorkers := 1, startMethod := .spawn,
    timeoutSeconds := LOAD_LIBRARY_TIME_OUT, shutdownAfterBuild := true }

/-- Model of `_LibrariesEntry.is_valid`. -/
def libEntryIsValid (e : LibEntry) : Bool :=
  e.doc.isSome

/-- Model of `_LibrariesEntry.get_libdoc` around one `_update` run: with a
doc present it is returned without building; otherwise the build coroutine
runs — on success the doc is stored and a file watcher registered, on an
exception the entry is left unchanged and the exception propagates.  The
third component records whether the build ran. -/
def libEntryGetLibdoc (e : LibEntry) (buildResult : Except BuildErr LibraryDoc) :
    LibEntry × Except BuildErr LibraryDoc × Bool :=
  match e.doc with
  | some d => (e, .ok d, false)
  | none =>
    match buildResult with
    | .ok d => ({ e with doc := some d, watcherCount := e.watcherCount + 1 }, .ok d, true)
    | .error err => (e, .error err, true)

/-- C7: every cache-miss build uses a fresh one-shot spawn worker with a
30-second deadline that is shut down afterwards; a failing or timed-out
introspection propagates to the caller and leaves no doc on the entry
(`is_valid` stays false), and the next request runs the build again from
scratch. -/
theorem C7_one_shot_subprocess_and_failed_builds :
    libraryBuildExecutorConfig
        = { maxWorkers := 1, startMethod := .spawn, timeoutSeconds := 30,
            shutdownAfterBuild := true }
  ∧ (∀ (cachePath : String) (env : BuildEnv) (err : BuildErr),
        env.metaResult = .ok none → env.subprocessResult = .error err →
        getLibdocBuild cachePath env = ⟨.error err, true, []⟩)
  ∧ (∀ (e : LibEntry) (err : BuildErr), e.doc = none →
        libEntryGetLibdoc e (.error err) = (e, .error err, true)
          ∧ libEntryIsValid (libEntryGetLibdoc e (.error err)).1 = false)
  ∧ (∀ (e : LibEntry) (err : BuildErr) (d : LibraryDoc), e.doc = none →
        (libEntryGetLibdoc (libEntryGetLibdoc e (.error err)).1 (.ok d)).2.1 = .ok d
          ∧ (libEntryGetLibdoc (libEntryGetLibdoc e (.error err)).1 (.ok d)).2.2 = true) := by
  refine ⟨rfl, ?_, ?_, ?_⟩
  · intro cachePath env err hm hs
    simp [getLibdocBuild, hm, buildViaSubprocess, hs]
  · intro e err he
    constructor <;> simp [libEntryGetLibdoc, libEntryIsValid, he]
  · intro e err d he
    constructor <;> simp [libEntryGetLibdoc, he]

/-- Entry used in the C7 witness: empty, never built. -/
def c7Entry : LibEntry :=
  { doc := none, watcherCount := 0, referenceCount := 1, watchedRoots := ["/w"], entryId := 3 }

/-- Build environment used in the C7 witness: uncacheable import, timed-out
introspection. -/
def c7Env : BuildEnv :=
  { metaResult := .ok none, metaFileRead := none, specFileRead := .error (),
    subprocessResult := .error .timeout, writeSpecOk := true, writeMetaOk := true }

/-- Witness for C7: a concrete timed-out build propagates, leaves the entry
invalid, and the follow-up request rebuilds and succeeds. -/
theorem C7_one_shot_subprocess_and_failed_builds_witness :
    getLibdocBuild "/c" c7Env = ⟨.error .timeout, true, []⟩
      ∧ libEntryGetLibdoc c7Entry (.error .timeout) = (c7Entry, .error .timeout, true)
      ∧ libEntryIsValid (libEntryGetLibdoc c7Entry (.error .timeout)).1 = false
      ∧ (libEntryGetLibdoc (libEntryGetLibdoc c7Entry (.error .timeout)).1 (.ok ⟨9⟩)).2.1
          = .ok ⟨9⟩ :=
  ⟨C7_one_shot_subprocess_and_failed_builds.2.1 "/c" c7Env .timeout rfl rfl,
   (C7_one_shot_subprocess_and_failed_builds.2.2.1 c7Entry .timeout rfl).1,
   (C7_one_shot_subprocess_and_failed_builds.2.2.1 c7Entry .timeout rfl).2,
   (C7_one_shot_subprocess_and_failed_builds.2.2.2 c7Entry .timeout ⟨9⟩ rfl).1⟩

/-- The three import kinds. -/
inductive ImportKind
  | library
  | resource
  | variables
  deriving DecidableEq, Repr

/-- Observable actions of the change dispatcher: an entry invalidation that
actually cleared state, and the emission of one of the three coarse change
events with its doc payload. -/
inductive DispatchAction where
  | invalidated (kind : ImportKind) (keyName : String)
  | emitted (kind : ImportKind) (docs : List LibraryDoc)
  deriving DecidableEq, Repr

/-- Model of `_LibrariesEntry._invalidate`: drop the file watchers and the
doc unless there is nothing to drop. -/
def libInvalidate (e : LibEntry) : LibEntry :=
  if e.doc.isNone && e.watcherCount == 0 then e
  else { e with doc := none, watcherCount := 0 }

/-- Whether invalidating the library entry changes its state. -/
def libInvalidateChanged (e : LibEntry) : Bool :=
  !(e.doc.isNone && e.watcherCount == 0)

/-- Model of `_ResourcesEntry._invalidate`. -/
def resInvalidate (e : ResEntry) : ResEntry :=
  if e.document.isNone && e.watcherCount == 0 then e
  else { e with document := none, doc := none, watcherCount := 0 }

/-- Whether invalidating the resource entry changes its state. -/
def resInvalidateChanged (e : ResEntry) : Bool :=
  !(e.document.isNone && e.watcherCount == 0)

/-- Model of `_VariablesEntry._invalidate`. -/
def varInvalidate (e : VarEntry) : VarEntry :=
  if e.doc.isNone && e.watcherCount == 0 then e
  else { e with doc := none, watcherCount := 0 }

/-- Whether invalidating the variables entry changes its state. -/
def varInvalidateChanged (e : VarEntry) : Bool :=
  !(e.doc.isNone && e.watcherCount == 0)

/-- Removal of a key from an ordered registry map. -/
def popEntry {κ ε : Type} [BEq κ] (reg : List (κ × ε)) (k : κ) : List (κ × ε) :=
  reg.filter (fun p => !(p.1 == k))

/-- Model of `ImportsManager.__remove_library_entry` with `now` as the
source's forced-removal flag: note that the inner re-check under the
registry lock tests only `len(entry.references) == 0`, without `or now`.
The popped (or retained) registry is returned together with the effective
invalidation actions.  The comparison `e1 == entry` is Python object
identity, modelled by structural equality including `entryId`. -/
def removeLibraryEntry (reg : List (LibKey × LibEntry)) (k : LibKey) (e : LibEntry)
    (now : Bool) : List (LibKey × LibEntry) × List DispatchAction :=
  if e.referenceCount == 0 || now then
    if e.referenceCount == 0 then
      match reg.lookup k with
      | some e1 =>
        if e1 = e then
          (popEntry reg k,
           if libInvalidateChanged e then [DispatchAction.invalidated .library k.name] else [])
        else (reg, [])
      | none => (reg, [])
    else (reg, [])
  else (reg, [])

/-- Model of `ImportsManager.__remove_resource_entry`: here the inner
re-check is `len(entry.references) == 0 or now`. -/
def removeResourceEntry (reg : List (ResKey × ResEntry)) (k : ResKey) (e : ResEntry)
    (now : Bool) : List (ResKey × ResEntry) × List DispatchAction :=
  if e.referenceCount == 0 || now then
    if e.referenceCount == 0 || now then
      match reg.lookup k with
      | some e1 =>
        if e1 = e then
          (popEntry reg k,
           if resInvalidateChanged e then [DispatchAction.invalidated .resource k.name] else [])
        else (reg, [])
      | none => (reg, [])
    else (reg, [])
  else (reg, [])

/-- Model of `ImportsManager.__remove_variables_entry`: like the library
variant, the inner re-check lacks `or now`. -/
def removeVariablesEntry (reg : List (VarKey × VarEntry)) (k : VarKey) (e : VarEntry)
    (now : Bool) : List (VarKey × VarEntry) × List DispatchAction :=
  if e.referenceCount == 0 || now then
    if e.referenceCount == 0 then
      match reg.lookup k with
      | some e1 =>
        if e1 = e then
          (popEntry reg k,
           if varInvalidateChanged e then [DispatchAction.invalidated .variables k.name] else [])
        else (reg, [])
      | none => (reg, [])
    else (reg, [])
  else (reg, [])

/-- Library entry with live sentinel references used in the C3 input. -/
def c3LibEntry : LibEntry :=
  { doc := some ⟨1⟩, watcherCount := 1, referenceCount := 2, watchedRoots := ["/w"], entryId := 0 }

/-- Resource entry with live sentinel references used in the C3 input. -/
def c3ResEntry : ResEntry :=
  { document := some "/w/a.resource", doc := some ⟨2⟩, namespaceDoc := ⟨2⟩,
    watcherCount := 1, referenceCount := 2, entryId := 1 }

/-- Variables entry with live sentinel references used in the C3 input. -/
def c3VarEntry : VarEntry :=
  { doc := some ⟨3⟩, source := some "/w/v.py", watcherCount := 1, referenceCount := 2, entryId := 2 }

/-- C3: forced removal (the `Deleted` dispatch path calls the removal
helpers with `now=True`) leaves library and variables entries with live
references in their registries — only the resource helper's inner re-check
includes `or now` and actually evicts.  This contradicts the claim (and the
spec's registry design) for two of the three kinds. -/
theorem C3_forced_eviction_not_forced :
    (removeLibraryEntry [(⟨"/w/L.py", []⟩, c3LibEntry)] ⟨"/w/L.py", []⟩ c3LibEntry true).1
        = [(⟨"/w/L.py", []⟩, c3LibEntry)]
  ∧ (removeVariablesEntry [(⟨"/w/v.py", []⟩, c3VarEntry)] ⟨"/w/v.py", []⟩ c3VarEntry true).1
        = [(⟨"/w/v.py", []⟩, c3VarEntry)]
  ∧ (removeResourceEntry [(⟨"/w/a.resource"⟩, c3ResEntry)] ⟨"/w/a.resource"⟩ c3ResEntry true).1
        = []
  ∧ c3LibEntry.referenceCount ≠ 0 ∧ c3VarEntry.referenceCount ≠ 0 := by
  refine ⟨by decide, by decide, by decide, by decide, by decide⟩

/-- LSP file change types. -/
inductive FileChangeType
  | created
  | changed
  | deleted
  deriving DecidableEq, Repr

/-- An LSP `FileEvent`. -/
structure FileEvent where
  uri : String
  type : FileChangeType
  deriving DecidableEq, Repr

/-- Whether the event uri has the `file` scheme. -/
def isFileUri (u : String) : Bool :=
  ("file://".data).isPrefixOf u.data

/-- Filesystem path of a `file://` uri. -/
def uriToPath (u : String) : String :=
  String.mk (u.data.drop 7)

/-- Model of `path_is_relative_to(path, root)` over canonical paths,
as containment of the root as a path prefix. -/
def pathUnderRoot (root p : String) : Bool :=
  root.data.isPrefixOf p.data

/-- Whether a file event matches a library entry: a `file` uri below one of
the entry's watched roots (the four containment alternatives of
`_LibrariesEntry.check_file_changed` are abstracted into the root list). -/
def libEventMatches (e : LibEntry) (c : FileEvent) : Bool :=
  isFileUri c.uri && e.watchedRoots.any (fun r => pathUnderRoot r (uriToPath c.uri))

/-- Model of `_LibrariesEntry.check_file_changed`: nothing matches without
a doc; otherwise the first matching change invalidates the entry and its
change type is returned. -/
def libCheckFileChanged (e : LibEntry) (changes : List FileEvent) :
    LibEntry × Option FileChangeType :=
  if e.doc.isNone then (e, none)
  else
    match changes.find? (libEventMatches e) with
    | some c => (libInvalidate e, some c.type)
    | none => (e, none)

/-- Whether a file event matches a resource entry: a `file` uri equal to
the loaded document's path — and, per the source, any `file` uri at all
when the entry holds no document. -/
def resEventMatches (e : ResEntry) (c : FileEvent) : Bool :=
  isFileUri c.uri &&
    (match e.document with
     | some docPath => uriToPath c.uri == docPath
     | none => true)

/-- Model of `_ResourcesEntry.check_file_changed`. -/
def resCheckFileChanged (e : ResEntry) (changes : List FileEvent) :
    ResEntry × Option FileChangeType :=
  match changes.find? (resEventMatches e) with
  | some c => (resInvalidate e, some c.type)
  | none => (e, none)

/-- Whether a file event matches a variables entry: a `file` uri that is
the same file as the doc's truthy source (`samefile` over canonical paths
modelled as equality). -/
def varEventMatches (e : VarEntry) (c : FileEvent) : Bool :=
  isFileUri c.uri &&
    (match e.source with
     | some s => decide (s ≠ "") && (uriToPath c.uri == s)
     | none => false)

/-- Model of `_VariablesEntry.check_file_changed`. -/
def varCheckFileChanged (e : VarEntry) (changes : List FileEvent) :
    VarEntry × Option FileChangeType :=
  if e.doc.isNone then (e, none)
  else
    match changes.find? (varEventMatches e) with
    | some c => (varInvalidate e, some c.type)
    | none => (e, none)

/-- The entry mutation performed by `r_entry.get_libdoc()` in the scan
phase: with a document present, the doc is (re)computed from the namespace
and cached on the entry. -/
def resEntryWithDocCached (e : ResEntry) : ResEntry :=
  if e.document.isSome then { e with doc := some (e.doc.getD e.namespaceDoc) } else e

/-- Scan phase of `did_change_watched_files` over the library registry: for
each entry, remember the doc it held (when valid), then apply
`check_file_changed`; collect `(key, change type, previous doc)` for every
match, and the effective invalidation actions in order. -/
def scanLibraries (libs : List (LibKey × LibEntry)) (changes : List FileEvent) :
    List (LibKey × LibEntry) × List (LibKey × FileChangeType × Option LibraryDoc)
      × List DispatchAction :=
  match libs with
  | [] => ([], [], [])
  | (k, e) :: rest =>
    let prevDoc := if libEntryIsValid e then e.doc else none
    let ck := libCheckFileChanged e changes
    let r := scanLibraries rest changes
    ((k, ck.1) :: r.1,
     (match ck.2 with
      | some t => (k, t, prevDoc) :: r.2.1
      | none => r.2.1),
     (match ck.2 with
      | some _ => DispatchAction.invalidated .library k.name :: r.2.2
      | none => r.2.2))

/-- Scan phase over the resource registry (with the `get_libdoc` caching
side effect of the valid entries). -/
def scanResources (ress : List (ResKey × ResEntry)) (changes : List FileEvent) :
    List (ResKey × ResEntry) × List (ResKey × FileChangeType × Option LibraryDoc)
      × List DispatchAction :=
  match ress with
  | [] => ([], [], [])
  | (k, e) :: rest =>
    let prevDoc := if e.document.isSome then some (e.doc.getD e.namespaceDoc) else none
    let e1 := resEntryWithDocCached e
    let ck := resCheckFileChanged e1 changes
    let r := scanResources rest changes
    ((k, ck.1) :: r.1,
     (match ck.2 with
      | some t => (k, t, prevDoc) :: r.2.1
      | none => r.2.1),
     (match ck.2 with
      | some _ => DispatchAction.invalidated .resource k.name :: r.2.2
      | none => r.2.2))

/-- Scan phase over the variables registry. -/
def scanVariables (vars : List (VarKey × VarEntry)) (changes : List FileEvent) :
    List (VarKey × VarEntry) × List (VarKey × FileChangeType × Option LibraryDoc)
      × List DispatchAction :=
  match vars with
  | [] => ([], [], [])
  | (k, e) :: rest =>
    let prevDoc := e.doc
    let ck := varCheckFileChanged e changes
    let r := scanVariables rest changes
    ((k, ck.1) :: r.1,
     (match ck.2 with
      | some t => (k, t, prevDoc) :: r.2.1
      | none => r.2.1),
     (match ck.2 with
      | some _ => DispatchAction.invalidated .variables k.name :: r.2.2
      | none => r.2.2))

/-- Removal pass for deleted library entries: for each collected change of
type `Deleted`, look the key up and call the removal helper with
`now=True`. -/
def removeDeletedLibraries (reg : List (LibKey × LibEntry))
    (changed : List (LibKey × FileChangeType × Option LibraryDoc)) :
    List (LibKey × LibEntry) × List DispatchAction :=
  match changed with
  | [] => (reg, [])
  | (k, t, _) :: rest =>
    let step :=
      if t = FileChangeType.deleted then
        match reg.lookup k with
        | some e => removeLibraryEntry reg k e true
        | none => (reg, [])
      else (reg, [])
    let r := removeDeletedLibraries step.1 rest
    (r.1, step.2 ++ r.2)

/-- Removal pass for deleted resource entries. -/
def removeDeletedResources (reg : List (ResKey × ResEntry))
    (changed : List (ResKey × FileChangeType × Option LibraryDoc)) :
    List (ResKey × ResEntry) × List DispatchAction :=
  match changed with
  | [] => (reg, [])
  | (k, t, _) :: rest =>
    let step :=
      if t = FileChangeType.deleted then
        match reg.lookup k with
        | some e => removeResourceEntry reg k e true
        | none => (reg, [])
      else (reg, [])
    let r := removeDeletedResources step.1 rest
    (r.1, step.2 ++ r.2)

/-- Removal pass for deleted variables entries. -/
def removeDeletedVariables (reg : List (VarKey × VarEntry))
    (changed : List (VarKey × FileChangeType × Option LibraryDoc)) :
    List (VarKey × VarEntry) × List DispatchAction :=
  match changed with
  | [] => (reg, [])
  | (k, t, _) :: rest =>
    let step :=
      if t = FileChangeType.deleted then
        match reg.lookup k with
        | some e => removeVariablesEntry reg k e true
        | none => (reg, [])
      else (reg, [])
    let r := removeDeletedVariables step.1 rest
    (r.1, step.2 ++ r.2)

/-- The three registries of the imports manager. -/
structure ManagerState where
  libraries : List (LibKey × LibEntry)
  resources : List (ResKey × ResEntry)
  variablesEntries : List (VarKey × VarEntry)
  deriving DecidableEq, Repr

/-- Phase two of the dispatcher for the library kind: when matches were
collected, evict the `Deleted` ones and emit `libraries_changed` with the
non-`None` previous docs. -/
def libPhaseTwo (reg : List (LibKey × LibEntry))
    (tuples : List (LibKey × FileChangeType × Option LibraryDoc)) :
    List (LibKey × LibEntry) × List DispatchAction :=
  if tuples.isEmpty then (reg, [])
  else
    let rm := removeDeletedLibraries reg tuples
    (rm.1, rm.2 ++ [DispatchAction.emitted .library (tuples.filterMap (fun x => x.2.2))])

/-- Phase two of the dispatcher for the resource kind. -/
def resPhaseTwo (reg : List (ResKey × ResEntry))
    (tuples : List (ResKey × FileChangeType × Option LibraryDoc)) :
    List (ResKey × ResEntry) × List DispatchAction :=
  if tuples.isEmpty then (reg, [])
  else
    let rm := removeDeletedResources reg tuples
    (rm.1, rm.2 ++ [DispatchAction.emitted .resource (tuples.filterMap (fun x => x.2.2))])

/-- Phase two of the dispatcher for the variables kind. -/
def varPhaseTwo (reg : List (VarKey × VarEntry))
    (tuples : List (VarKey × FileChangeType × Option LibraryDoc)) :
    List (VarKey × VarEntry) × List DispatchAction :=
  if tuples.isEmpty then (reg, [])
  else
    let rm := removeDeletedVariables reg tuples
    (rm.1, rm.2 ++ [DispatchAction.emitted .variables (tuples.filterMap (fun x => x.2.2))])

/-- Model of `ImportsManager.did_change_watched_files`: scan all three
registries (invalidating matching entries and remembering their previous
docs), then — per kind, in source order — evict the `Deleted` matches and
emit the coarse change event carrying the previous docs. -/
def didChangeWatchedFiles (st : ManagerState) (changes : List FileEvent) :
    ManagerState × List DispatchAction :=
  let sl := scanLibraries st.libraries changes
  let sr := scanResources st.resources changes
  let sv := scanVariables st.variablesEntries changes
  let phL := libPhaseTwo sl.1 sl.2.1
  let phR := resPhaseTwo sr.1 sr.2.1
  let phV := varPhaseTwo sv.1 sv.2.1
  (⟨phL.1, phR.1, phV.1⟩, sl.2.2 ++ sr.2.2 ++ sv.2.2 ++ phL.2 ++ phR.2 ++ phV.2)

/-- A library entry is affected by a batch when it has a doc and some event
matches it. -/
def libAffected (e : LibEntry) (changes : List FileEvent) : Bool :=
  e.doc.isSome && changes.any (libEventMatches e)

/-- A resource entry is affected when some event matches it. -/
def resAffected (e : ResEntry) (changes : List FileEvent) : Bool :=
  changes.any (resEventMatches e)

/-- A variables entry is affected when it has a doc and some event matches
it. -/
def varAffected (e : VarEntry) (changes : List FileEvent) : Bool :=
  e.doc.isSome && changes.any (varEventMatches e)

/-- The docs held by the affected library entries, in registry order. -/
def affectedLibDocs (libs : List (LibKey × LibEntry)) (changes : List FileEvent) :
    List LibraryDoc :=
  libs.filterMap (fun p => if libAffected p.2 changes then p.2.doc else none)

/-- The docs held (or recomputed from the namespace) by the affected valid
resource entries, in registry order. -/
def affectedResDocs (ress : List (ResKey × ResEntry)) (changes : List FileEvent) :
    List LibraryDoc :=
  ress.filterMap (fun p =>
    if resAffected p.2 changes then
      if p.2.document.isSome then some (p.2.doc.getD p.2.namespaceDoc) else none
    else none)

/-- The docs held by the affected variables entries, in registry order. -/
def affectedVarDocs (vars : List (VarKey × VarEntry)) (changes : List FileEvent) :
    List LibraryDoc :=
  vars.filterMap (fun p => if varAffected p.2 changes then p.2.doc else none)


theorem lookup_mem {κ ε : Type} [BEq κ] [LawfulBEq κ] :
    ∀ (l : List (κ × ε)) (k : κ) (e : ε), l.lookup k = some e → (k, e) ∈ l := by
  intro l k e h
  induction l with
  | nil => cases h
  | cons p rest ih =>
    cases p with
    | mk k' v =>
      simp only [List.lookup] at h
      split at h
      · next heq =>
        cases h
        have hk : k = k' := eq_of_beq heq
        subst hk
        exact List.mem_cons_self _ _
      · exact List.mem_cons_of_mem _ (ih h)

theorem popEntry_mem {κ ε : Type} [BEq κ] (reg : List (κ × ε)) (k : κ) :
    ∀ p ∈ popEntry reg k, p ∈ reg := by
  intro p hp
  exact List.mem_of_mem_filter hp

theorem libInvalidateChanged_invalidate (e : LibEntry) :
    libInvalidateChanged (libInvalidate e) = false := by
  unfold libInvalidate libInvalidateChanged
  by_cases h : (e.doc.isNone && e.watcherCount == 0) = true <;> simp [h]

theorem libCheckFileChanged_matched (e : LibEntry) (changes : List FileEvent) (t : FileChangeType)
    (h : (libCheckFileChanged e changes).2 = some t) :
    (libCheckFileChanged e changes).1 = libInvalidate e
      ∧ e.doc.isSome = true ∧ changes.any (libEventMatches e) = true := by
  cases hd : e.doc with
  | none => simp [libCheckFileChanged, hd] at h
  | some d =>
    cases hf : changes.find? (libEventMatches e) with
    | none => simp [libCheckFileChanged, hd, hf] at h
    | some c =>
      refine ⟨by simp [libCheckFileChanged, hd, hf], by simp [hd], ?_⟩
      exact List.any_eq_true.mpr
        ⟨c, List.mem_of_find?_eq_some hf, List.find?_some hf⟩

theorem libCheckFileChanged_unmatched (e : LibEntry) (changes : List FileEvent)
    (h : (libCheckFileChanged e changes).2 = none) :
    (libCheckFileChanged e changes).1 = e ∧ libAffected e changes = false := by
  cases hd : e.doc with
  | none =>
    exact ⟨by simp [libCheckFileChanged, hd], by simp [libAffected, hd]⟩
  | some d =>
    cases hf : changes.find? (libEventMatches e) with
    | some c => simp [libCheckFileChanged, hd, hf] at h
    | none =>
      refine ⟨by simp [libCheckFileChanged, hd, hf], ?_⟩
      have hall : ∀ x ∈ changes, ¬ libEventMatches e x = true :=
        fun x hx => by simpa using List.find?_eq_none.mp hf x hx
      simp only [libAffected, hd, Option.isSome_some, Bool.true_and]
      exact List.any_eq_false.mpr hall

theorem scanLibraries_trace_inv (libs : List (LibKey × LibEntry)) (changes : List FileEvent) :
    ∀ a ∈ (scanLibraries libs changes).2.2, ∃ nm, a = DispatchAction.invalidated .library nm := by
  induction libs with
  | nil => intro a ha; cases ha
  | cons p rest ih =>
    cases p with
    | mk k e =>
      intro a ha
      simp only [scanLibraries] at ha
      cases hc : (libCheckFileChanged e changes).2 with
      | some t =>
        rw [hc] at ha
        rcases List.mem_cons.mp ha with h | h
        · exact ⟨k.name, h⟩
        · exact ih a h
      | none =>
        rw [hc] at ha
        exact ih a ha

theorem scanLibraries_payload (libs : List (LibKey × LibEntry)) (changes : List FileEvent) :
    (scanLibraries libs changes).2.1.filterMap (fun x => x.2.2)
      = affectedLibDocs libs changes := by
  induction libs with
  | nil => rfl
  | cons p rest ih =>
    cases p with
    | mk k e =>
      simp only [scanLibraries, affectedLibDocs, List.filterMap_cons]
      cases hc : (libCheckFileChanged e changes).2 with
      | some t =>
        obtain ⟨-, hds, hany⟩ := libCheckFileChanged_matched e changes t hc
        have haff : libAffected e changes = true := by simp [libAffected, hds, hany]
        have hvalid : libEntryIsValid e = true := by simpa [libEntryIsValid] using hds
        obtain ⟨d, hd⟩ := Option.isSome_iff_exists.mp hds
        simp only [hvalid, if_true, haff, hd, List.filterMap_cons]
        unfold affectedLibDocs at ih
        rw [ih]
      | none =>
        obtain ⟨-, haff⟩ := libCheckFileChanged_unmatched e changes hc
        simp only [haff, Bool.false_eq_true, if_false]
        unfold affectedLibDocs at ih
        rw [ih]

theorem scanLibraries_tuples_empty (libs : List (LibKey × LibEntry)) (changes : List FileEvent) :
    (scanLibraries libs changes).2.1 = []
      ↔ libs.any (fun p => libAffected p.2 changes) = false := by
  induction libs with
  | nil => simp [scanLibraries]
  | cons p rest ih =>
    cases p with
    | mk k e =>
      simp only [scanLibraries, List.any_cons]
      cases hc : (libCheckFileChanged e changes).2 with
      | some t =>
        obtain ⟨-, hds, hany⟩ := libCheckFileChanged_matched e changes t hc
        have haff : libAffected e changes = true := by simp [libAffected, hds, hany]
        simp [haff]
      | none =>
        obtain ⟨-, haff⟩ := libCheckFileChanged_unmatched e changes hc
        simp [haff, ih]

theorem scanLibraries_keys (libs : List (LibKey × LibEntry)) (changes : List FileEvent) :
    (scanLibraries libs changes).1.map Prod.fst = libs.map Prod.fst := by
  induction libs with
  | nil => rfl
  | cons p rest ih =>
    cases p with
    | mk k e => simp only [scanLibraries, List.map_cons]; rw [ih]

theorem scanLibraries_tuple_key (libs : List (LibKey × LibEntry)) (changes : List FileEvent)
    (k : LibKey) (t : FileChangeType) (d : Option LibraryDoc) :
    (k, t, d) ∈ (scanLibraries libs changes).2.1 → k ∈ libs.map Prod.fst := by
  induction libs with
  | nil => intro h; cases h
  | cons p rest ih =>
    cases p with
    | mk k0 e =>
      intro h
      simp only [scanLibraries] at h
      cases hc : (libCheckFileChanged e changes).2 with
      | some tt =>
        rw [hc] at h
        rcases List.mem_cons.mp h with hh | hh
        · exact List.mem_cons.mpr (Or.inl (congrArg Prod.fst hh))
        · exact List.mem_cons.mpr (Or.inr (ih hh))
      | none =>
        rw [hc] at h
        exact List.mem_cons.mpr (Or.inr (ih h))

theorem scanLibraries_clean (libs : List (LibKey × LibEntry)) (changes : List FileEvent)
    (hnd : (libs.map Prod.fst).Nodup) :
    ∀ k t d, (k, t, d) ∈ (scanLibraries libs changes).2.1 →
      ∀ e', (k, e') ∈ (scanLibraries libs changes).1 → libInvalidateChanged e' = false := by
  induction libs with
  | nil => intro k t d h; cases h
  | cons p rest ih =>
    cases p with
    | mk k0 e =>
      have hnd2 : (k0 :: rest.map Prod.fst).Nodup := by simpa using hnd
      obtain ⟨hk0notin, hnd'⟩ := List.nodup_cons.mp hnd2
      intro k t d htup e' hmem
      simp only [scanLibraries] at htup hmem
      cases hc : (libCheckFileChanged e changes).2 with
      | some tt =>
        rw [hc] at htup
        rcases List.mem_cons.mp htup with hh | hh
        · have hk : k = k0 := congrArg (fun x => x.1) hh
          subst hk
          rcases List.mem_cons.mp hmem with hm | hm
          · have he' : e' = (libCheckFileChanged e changes).1 := congrArg (fun x => x.2) hm
            rw [he', (libCheckFileChanged_matched e changes tt hc).1]
            exact libInvalidateChanged_invalidate e
          · exfalso
            have : k ∈ (scanLibraries rest changes).1.map Prod.fst :=
              List.mem_map_of_mem Prod.fst hm
            rw [scanLibraries_keys] at this
            exact hk0notin this
        · have hkrest : k ∈ rest.map Prod.fst := scanLibraries_tuple_key rest changes k t d hh
          rcases List.mem_cons.mp hmem with hm | hm
          · have hk : k = k0 := congrArg (fun x => x.1) hm
            exact absurd (hk ▸ hkrest) hk0notin
          · exact ih hnd' k t d hh e' hm
      | none =>
        rw [hc] at htup
        have hkrest : k ∈ rest.map Prod.fst := scanLibraries_tuple_key rest changes k t d htup
        rcases List.mem_cons.mp hmem with hm | hm
        · have hk : k = k0 := congrArg (fun x => x.1) hm
          exact absurd (hk ▸ hkrest) hk0notin
        · exact ih hnd' k t d htup e' hm

theorem removeLibraryEntry_sub (reg : List (LibKey × LibEntry)) (k : LibKey) (e : LibEntry)
    (now : Bool) : ∀ p ∈ (removeLibraryEntry reg k e now).1, p ∈ reg := by
  intro p hp
  unfold removeLibraryEntry at hp
  split at hp
  · split at hp
    · split at hp
      · split at hp
        · exact popEntry_mem reg k p hp
        · exact hp
      · exact hp
    · exact hp
  · exact hp

theorem removeLibraryEntry_silent (reg : List (LibKey × LibEntry)) (k : LibKey) (e : LibEntry)
    (now : Bool) (h : libInvalidateChanged e = false) :
    (removeLibraryEntry reg k e now).2 = [] := by
  unfold removeLibraryEntry
  repeat' split
  all_goals simp_all

theorem removeDeletedLibraries_silent
    (changed : List (LibKey × FileChangeType × Option LibraryDoc)) :
    ∀ reg : List (LibKey × LibEntry),
      (∀ k t d, (k, t, d) ∈ changed → ∀ e', (k, e') ∈ reg → libInvalidateChanged e' = false) →
      (removeDeletedLibraries reg changed).2 = [] := by
  induction changed with
  | nil => intro reg _; rfl
  | cons c rest ih =>
    obtain ⟨k, t, d⟩ := c
    intro reg h
    by_cases ht : t = FileChangeType.deleted
    · cases hl : reg.lookup k with
      | some e =>
        have he : libInvalidateChanged e = false :=
          h k t d (List.mem_cons_self _ _) e (lookup_mem reg k e hl)
        have hrec : (removeDeletedLibraries (removeLibraryEntry reg k e true).1 rest).2 = [] := by
          refine ih _ ?_
          intro k' t' d' hmem' e' hmem2
          exact h k' t' d' (List.mem_cons_of_mem _ hmem') e'
            (removeLibraryEntry_sub reg k e true _ hmem2)
        simp [removeDeletedLibraries, ht, hl,
          removeLibraryEntry_silent reg k e true he, hrec]
      | none =>
        have hrec : (removeDeletedLibraries reg rest).2 = [] := by
          refine ih _ ?_
          intro k' t' d' hmem' e' hmem2
          exact h k' t' d' (List.mem_cons_of_mem _ hmem') e' hmem2
        simp [removeDeletedLibraries, ht, hl, hrec]
    · have hrec : (removeDeletedLibraries reg rest).2 = [] := by
        refine ih _ ?_
        intro k' t' d' hmem' e' hmem2
        exact h k' t' d' (List.mem_cons_of_mem _ hmem') e' hmem2
      simp [removeDeletedLibraries, ht, hrec]

theorem resInvalidateChanged_invalidate (e : ResEntry) :
    resInvalidateChanged (resInvalidate e) = false := by
  unfold resInvalidate resInvalidateChanged
  by_cases h : (e.document.isNone && e.watcherCount == 0) = true <;> simp [h]

theorem resEventMatches_cached (e : ResEntry) (c : FileEvent) :
    resEventMatches (resEntryWithDocCached e) c = resEventMatches e c := by
  unfold resEventMatches resEntryWithDocCached
  by_cases h : e.document.isSome = true <;> simp [h]

theorem resCheckFileChanged_matched (e : ResEntry) (changes : List FileEvent) (t : FileChangeType)
    (h : (resCheckFileChanged e changes).2 = some t) :
    (resCheckFileChanged e changes).1 = resInvalidate e
      ∧ changes.any (resEventMatches e) = true := by
  cases hf : changes.find? (resEventMatches e) with
  | none => simp [resCheckFileChanged, hf] at h
  | some c =>
    refine ⟨by simp [resCheckFileChanged, hf], ?_⟩
    exact List.any_eq_true.mpr ⟨c, List.mem_of_find?_eq_some hf, List.find?_some hf⟩

theorem resCheckFileChanged_unmatched (e : ResEntry) (changes : List FileEvent)
    (h : (resCheckFileChanged e changes).2 = none) :
    (resCheckFileChanged e changes).1 = e ∧ changes.any (resEventMatches e) = false := by
  cases hf : changes.find? (resEventMatches e) with
  | some c => simp [resCheckFileChanged, hf] at h
  | none =>
    refine ⟨by simp [resCheckFileChanged, hf], ?_⟩
    exact List.any_eq_false.mpr
      (fun x hx => by simpa using List.find?_eq_none.mp hf x hx)

theorem resEntryWithDocCached_document (e : ResEntry) :
    (resEntryWithDocCached e).document = e.document := by
  unfold resEntryWithDocCached
  by_cases h : e.document.isSome = true <;> simp [h]

theorem any_resEventMatches_cached (e : ResEntry) (changes : List FileEvent) :
    changes.any (resEventMatches (resEntryWithDocCached e)) = resAffected e changes := by
  unfold resAffected
  induction changes with
  | nil => rfl
  | cons c rest ih => simp [List.any_cons, resEventMatches_cached, ih]

theorem scanResources_trace_inv (ress : List (ResKey × ResEntry)) (changes : List FileEvent) :
    ∀ a ∈ (scanResources ress changes).2.2, ∃ nm, a = DispatchAction.invalidated .resource nm := by
  induction ress with
  | nil => intro a ha; cases ha
  | cons p rest ih =>
    cases p with
    | mk k e =>
      intro a ha
      simp only [scanResources] at ha
      cases hc : (resCheckFileChanged (resEntryWithDocCached e) changes).2 with
      | some t =>
        rw [hc] at ha
        rcases List.mem_cons.mp ha with h | h
        · exact ⟨k.name, h⟩
        · exact ih a h
      | none =>
        rw [hc] at ha
        exact ih a ha

theorem scanResources_payload (ress : List (ResKey × ResEntry)) (changes : List FileEvent) :
    (scanResources ress changes).2.1.filterMap (fun x => x.2.2)
      = affectedResDocs ress changes := by
  induction ress with
  | nil => rfl
  | cons p rest ih =>
    cases p with
    | mk k e =>
      simp only [scanResources, affectedResDocs, List.filterMap_cons]
      cases hc : (resCheckFileChanged (resEntryWithDocCached e) changes).2 with
      | some t =>
        obtain ⟨-, hany⟩ := resCheckFileChanged_matched _ changes t hc
        have haff : resAffected e changes = true := by
          rw [← any_resEventMatches_cached]; exact hany
        unfold affectedResDocs at ih
        by_cases hdoc : e.document.isSome = true
        · simp only [haff, if_true, hdoc, List.filterMap_cons]
          rw [ih]
        · simp only [haff, if_true, if_neg hdoc, List.filterMap_cons]
          rw [ih]
      | none =>
        obtain ⟨-, hany⟩ := resCheckFileChanged_unmatched _ changes hc
        have haff : resAffected e changes = false := by
          rw [← any_resEventMatches_cached]; exact hany
        simp only [haff, Bool.false_eq_true, if_false]
        unfold affectedResDocs at ih
        rw [ih]

theorem scanResources_tuples_empty (ress : List (ResKey × ResEntry)) (changes : List FileEvent) :
    (scanResources ress changes).2.1 = []
      ↔ ress.any (fun p => resAffected p.2 changes) = false := by
  induction ress with
  | nil => simp [scanResources]
  | cons p rest ih =>
    cases p with
    | mk k e =>
      simp only [scanResources, List.any_cons]
      cases hc : (resCheckFileChanged (resEntryWithDocCached e) changes).2 with
      | some t =>
        obtain ⟨-, hany⟩ := resCheckFileChanged_matched _ changes t hc
        have haff : resAffected e changes = true := by
          rw [← any_resEventMatches_cached]; exact hany
        simp [haff]
      | none =>
        obtain ⟨-, hany⟩ := resCheckFileChanged_unmatched _ changes hc
        have haff : resAffected e changes = false := by
          rw [← any_resEventMatches_cached]; exact hany
        simp [haff, ih]

theorem scanResources_keys (ress : List (ResKey × ResEntry)) (changes : List FileEvent) :
    (scanResources ress changes).1.map Prod.fst = ress.map Prod.fst := by
  induction ress with
  | nil => rfl
  | cons p rest ih =>
    cases p with
    | mk k e => simp only [scanResources, List.map_cons]; rw [ih]

theorem scanResources_tuple_key (ress : List (ResKey × ResEntry)) (changes : List FileEvent)
    (k : ResKey) (t : FileChangeType) (d : Option LibraryDoc) :
    (k, t, d) ∈ (scanResources ress changes).2.1 → k ∈ ress.map Prod.fst := by
  induction ress with
  | nil => intro h; cases h
  | cons p rest ih =>
    cases p with
    | mk k0 e =>
      intro h
      simp only [scanResources] at h
      cases hc : (resCheckFileChanged (resEntryWithDocCached e) changes).2 with
      | some tt =>
        rw [hc] at h
        rcases List.mem_cons.mp h with hh | hh
        · exact List.mem_cons.mpr (Or.inl (congrArg Prod.fst hh))
        · exact List.mem_cons.mpr (Or.inr (ih hh))
      | none =>
        rw [hc] at h
        exact List.mem_cons.mpr (Or.inr (ih h))

theorem scanResources_clean (ress : List (ResKey × ResEntry)) (changes : List FileEvent)
    (hnd : (ress.map Prod.fst).Nodup) :
    ∀ k t d, (k, t, d) ∈ (scanResources ress changes).2.1 →
      ∀ e', (k, e') ∈ (scanResources ress changes).1 → resInvalidateChanged e' = false := by
  induction ress with
  | nil => intro k t d h; cases h
  | cons p rest ih =>
    cases p with
    | mk k0 e =>
      have hnd2 : (k0 :: rest.map Prod.fst).Nodup := by simpa using hnd
      obtain ⟨hk0notin, hnd'⟩ := List.nodup_cons.mp hnd2
      intro k t d htup e' hmem
      simp only [scanResources] at htup hmem
      cases hc : (resCheckFileChanged (resEntryWithDocCached e) changes).2 with
      | some tt =>
        rw [hc] at htup
        rcases List.mem_cons.mp htup with hh | hh
        · have hk : k = k0 := congrArg (fun x => x.1) hh
          subst hk
          rcases List.mem_cons.mp hmem with hm | hm
          · have he' : e' = (resCheckFileChanged (resEntryWithDocCached e) changes).1 :=
              congrArg (fun x => x.2) hm
            rw [he', (resCheckFileChanged_matched _ changes tt hc).1]
            exact resInvalidateChanged_invalidate _
          · exfalso
            have : k ∈ (scanResources rest changes).1.map Prod.fst :=
              List.mem_map_of_mem Prod.fst hm
            rw [scanResources_keys] at this
            exact hk0notin this
        · have hkrest : k ∈ rest.map Prod.fst := scanResources_tuple_key rest changes k t d hh
          rcases List.mem_cons.mp hmem with hm | hm
          · have hk : k = k0 := congrArg (fun x => x.1) hm
            exact absurd (hk ▸ hkrest) hk0notin
          · exact ih hnd' k t d hh e' hm
      | none =>
        rw [hc] at htup
        have hkrest : k ∈ rest.map Prod.fst := scanResources_tuple_key rest changes k t d htup
        rcases List.mem_cons.mp hmem with hm | hm
        · have hk : k = k0 := congrArg (fun x => x.1) hm
          exact absurd (hk ▸ hkrest) hk0notin
        · exact ih hnd' k t d htup e' hm

theorem removeResourceEntry_sub (reg : List (ResKey × ResEntry)) (k : ResKey) (e : ResEntry)
    (now : Bool) : ∀ p ∈ (removeResourceEntry reg k e now).1, p ∈ reg := by
  intro p hp
  unfold removeResourceEntry at hp
  repeat' split at hp
  all_goals first
    | exact hp
    | exact popEntry_mem reg k p hp

theorem removeResourceEntry_silent (reg : List (ResKey × ResEntry)) (k : ResKey) (e : ResEntry)
    (now : Bool) (h : resInvalidateChanged e = false) :
    (removeResourceEntry reg k e now).2 = [] := by
  unfold removeResourceEntry
  repeat' split
  all_goals simp_all

theorem removeDeletedResources_silent
    (changed : List (ResKey × FileChangeType × Option LibraryDoc)) :
    ∀ reg : List (ResKey × ResEntry),
      (∀ k t d, (k, t, d) ∈ changed → ∀ e', (k, e') ∈ reg → resInvalidateChanged e' = false) →
      (removeDeletedResources reg changed).2 = [] := by
  induction changed with
  | nil => intro reg _; rfl
  | cons c rest ih =>
    obtain ⟨k, t, d⟩ := c
    intro reg h
    by_cases ht : t = FileChangeType.deleted
    · cases hl : reg.lookup k with
      | some e =>
        have he : resInvalidateChanged e = false :=
          h k t d (List.mem_cons_self _ _) e (lookup_mem reg k e hl)
        have hrec : (removeDeletedResources (removeResourceEntry reg k e true).1 rest).2 = [] := by
          refine ih _ ?_
          intro k' t' d' hmem' e' hmem2
          exact h k' t' d' (List.mem_cons_of_mem _ hmem') e'
            (removeResourceEntry_sub reg k e true _ hmem2)
        simp [removeDeletedResources, ht, hl,
          removeResourceEntry_silent reg k e true he, hrec]
      | none =>
        have hrec : (removeDeletedResources reg rest).2 = [] := by
          refine ih _ ?_
          intro k' t' d' hmem' e' hmem2
          exact h k' t' d' (List.mem_cons_of_mem _ hmem') e' hmem2
        simp [removeDeletedResources, ht, hl, hrec]
    · have hrec : (removeDeletedResources reg rest).2 = [] := by
        refine ih _ ?_
        intro k' t' d' hmem' e' hmem2
        exact h k' t' d' (List.mem_cons_of_mem _ hmem') e' hmem2
      simp [removeDeletedResources, ht, hrec]

theorem varInvalidateChanged_invalidate (e : VarEntry) :
    varInvalidateChanged (varInvalidate e) = false := by
  unfold varInvalidate varInvalidateChanged
  by_cases h : (e.doc.isNone && e.watcherCount == 0) = true <;> simp [h]

theorem varCheckFileChanged_matched (e : VarEntry) (changes : List FileEvent) (t : FileChangeType)
    (h : (varCheckFileChanged e changes).2 = some t) :
    (varCheckFileChanged e changes).1 = varInvalidate e
      ∧ e.doc.isSome = true ∧ changes.any (varEventMatches e) = true := by
  cases hd : e.doc with
  | none => simp [varCheckFileChanged, hd] at h
  | some d =>
    cases hf : changes.find? (varEventMatches e) with
    | none => simp [varCheckFileChanged, hd, hf] at h
    | some c =>
      refine ⟨by simp [varCheckFileChanged, hd, hf], by simp [hd], ?_⟩
      exact List.any_eq_true.mpr ⟨c, List.mem_of_find?_eq_some hf, List.find?_some hf⟩

theorem varCheckFileChanged_unmatched (e : VarEntry) (changes : List FileEvent)
    (h : (varCheckFileChanged e changes).2 = none) :
    (varCheckFileChanged e changes).1 = e ∧ varAffected e changes = false := by
  cases hd : e.doc with
  | none =>
    exact ⟨by simp [varCheckFileChanged, hd], by simp [varAffected, hd]⟩
  | some d =>
    cases hf : changes.find? (varEventMatches e) with
    | some c => simp [varCheckFileChanged, hd, hf] at h
    | none =>
      refine ⟨by simp [varCheckFileChanged, hd, hf], ?_⟩
      have hall : ∀ x ∈ changes, ¬ varEventMatches e x = true :=
        fun x hx => by simpa using List.find?_eq_none.mp hf x hx
      simp only [varAffected, hd, Option.isSome_some, Bool.true_and]
      exact List.any_eq_false.mpr hall

theorem scanVariables_trace_inv (vars : List (VarKey × VarEntry)) (changes : List FileEvent) :
    ∀ a ∈ (scanVariables vars changes).2.2, ∃ nm, a = DispatchAction.invalidated .variables nm := by
  induction vars with
  | nil => intro a ha; cases ha
  | cons p rest ih =>
    cases p with
    | mk k e =>
      intro a ha
      simp only [scanVariables] at ha
      cases hc : (varCheckFileChanged e changes).2 with
      | some t =>
        rw [hc] at ha
        rcases List.mem_cons.mp ha with h | h
        · exact ⟨k.name, h⟩
        · exact ih a h
      | none =>
        rw [hc] at ha
        exact ih a ha

theorem scanVariables_payload (vars : List (VarKey × VarEntry)) (changes : List FileEvent) :
    (scanVariables vars changes).2.1.filterMap (fun x => x.2.2)
      = affectedVarDocs vars changes := by
  induction vars with
  | nil => rfl
  | cons p rest ih =>
    cases p with
    | mk k e =>
      simp only [scanVariables, affectedVarDocs, List.filterMap_cons]
      cases hc : (varCheckFileChanged e changes).2 with
      | some t =>
        obtain ⟨-, hds, hany⟩ := varCheckFileChanged_matched e changes t hc
        have haff : varAffected e changes = true := by simp [varAffected, hds, hany]
        obtain ⟨d, hd⟩ := Option.isSome_iff_exists.mp hds
        simp only [haff, if_true, hd, List.filterMap_cons]
        unfold affectedVarDocs at ih
        rw [ih]
      | none =>
        obtain ⟨-, haff⟩ := varCheckFileChanged_unmatched e changes hc
        simp only [haff, Bool.false_eq_true, if_false]
        unfold affectedVarDocs at ih
        rw [ih]

theorem scanVariables_tuples_empty (vars : List (VarKey × VarEntry)) (changes : List FileEvent) :
    (scanVariables vars changes).2.1 = []
      ↔ vars.any (fun p => varAffected p.2 changes) = false := by
  induction vars with
  | nil => simp [scanVariables]
  | cons p rest ih =>
    cases p with
    | mk k e =>
      simp only [scanVariables, List.any_cons]
      cases hc : (varCheckFileChanged e changes).2 with
      | some t =>
        obtain ⟨-, hds, hany⟩ := varCheckFileChanged_matched e changes t hc
        have haff : varAffected e changes = true := by simp [varAffected, hds, hany]
        simp [haff]
      | none =>
        obtain ⟨-, haff⟩ := varCheckFileChanged_unmatched e changes hc
        simp [haff, ih]

theorem scanVariables_keys (vars : List (VarKey × VarEntry)) (changes : List FileEvent) :
    (scanVariables vars changes).1.map Prod.fst = vars.map Prod.fst := by
  induction vars with
  | nil => rfl
  | cons p rest ih =>
    cases p with
    | mk k e => simp only [scanVariables, List.map_cons]; rw [ih]

theorem scanVariables_tuple_key (vars : List (VarKey × VarEntry)) (changes : List FileEvent)
    (k : VarKey) (t : FileChangeType) (d : Option LibraryDoc) :
    (k, t, d) ∈ (scanVariables vars changes).2.1 → k ∈ vars.map Prod.fst := by
  induction vars with
  | nil => intro h; cases h
  | cons p rest ih =>
    cases p with
    | mk k0 e =>
      intro h
      simp only [scanVariables] at h
      cases hc : (varCheckFileChanged e changes).2 with
      | some tt =>
        rw [hc] at h
        rcases List.mem_cons.mp h with hh | hh
        · exact List.mem_cons.mpr (Or.inl (congrArg Prod.fst hh))
        · exact List.mem_cons.mpr (Or.inr (ih hh))
      | none =>
        rw [hc] at h
        exact List.mem_cons.mpr (Or.inr (ih h))

theorem scanVariables_clean (vars : List (VarKey × VarEntry)) (changes : List FileEvent)
    (hnd : (vars.map Prod.fst).Nodup) :
    ∀ k t d, (k, t, d) ∈ (scanVariables vars changes).2.1 →
      ∀ e', (k, e') ∈ (scanVariables vars changes).1 → varInvalidateChanged e' = false := by
  induction vars with
  | nil => intro k t d h; cases h
  | cons p rest ih =>
    cases p with
    | mk k0 e =>
      have hnd2 : (k0 :: rest.map Prod.fst).Nodup := by simpa using hnd
      obtain ⟨hk0notin, hnd'⟩ := List.nodup_cons.mp hnd2
      intro k t d htup e' hmem
      simp only [scanVariables] at htup hmem
      cases hc : (varCheckFileChanged e changes).2 with
      | some tt =>
        rw [hc] at htup
        rcases List.mem_cons.mp htup with hh | hh
        · have hk : k = k0 := congrArg (fun x => x.1) hh
          subst hk
          rcases List.mem_cons.mp hmem with hm | hm
          · have he' : e' = (varCheckFileChanged e changes).1 := congrArg (fun x => x.2) hm
            rw [he', (varCheckFileChanged_matched e changes tt hc).1]
            exact varInvalidateChanged_invalidate e
          · exfalso
            have : k ∈ (scanVariables rest changes).1.map Prod.fst :=
              List.mem_map_of_mem Prod.fst hm
            rw [scanVariables_keys] at this
            exact hk0notin this
        · have hkrest : k ∈ rest.map Prod.fst := scanVariables_tuple_key rest changes k t d hh
          rcases List.mem_cons.mp hmem with hm | hm
          · have hk : k = k0 := congrArg (fun x => x.1) hm
            exact absurd (hk ▸ hkrest) hk0notin
          · exact ih hnd' k t d hh e' hm
      | none =>
        rw [hc] at htup
        have hkrest : k ∈ rest.map Prod.fst := scanVariables_tuple_key rest changes k t d htup
        rcases List.mem_cons.mp hmem with hm | hm
        · have hk : k = k0 := congrArg (fun x => x.1) hm
          exact absurd (hk ▸ hkrest) hk0notin
        · exact ih hnd' k t d htup e' hm

theorem removeVariablesEntry_sub (reg : List (VarKey × VarEntry)) (k : VarKey) (e : VarEntry)
    (now : Bool) : ∀ p ∈ (removeVariablesEntry reg k e now).1, p ∈ reg := by
  intro p hp
  unfold removeVariablesEntry at hp
  repeat' split at hp
  all_goals first
    | exact hp
    | exact popEntry_mem reg k p hp

theorem removeVariablesEntry_silent (reg : List (VarKey × VarEntry)) (k : VarKey) (e : VarEntry)
    (now : Bool) (h : varInvalidateChanged e = false) :
    (removeVariablesEntry reg k e now).2 = [] := by
  unfold removeVariablesEntry
  repeat' split
  all_goals simp_all

theorem removeDeletedVariables_silent
    (changed : List (VarKey × FileChangeType × Option LibraryDoc)) :
    ∀ reg : List (VarKey × VarEntry),
      (∀ k t d, (k, t, d) ∈ changed → ∀ e', (k, e') ∈ reg → varInvalidateChanged e' = false) →
      (removeDeletedVariables reg changed).2 = [] := by
  induction changed with
  | nil => intro reg _; rfl
  | cons c rest ih =>
    obtain ⟨k, t, d⟩ := c
    intro reg h
    by_cases ht : t = FileChangeType.deleted
    · cases hl : reg.lookup k with
      | some e =>
        have he : varInvalidateChanged e = false :=
          h k t d (List.mem_cons_self _ _) e (lookup_mem reg k e hl)
        have hrec : (removeDeletedVariables (removeVariablesEntry reg k e true).1 rest).2 = [] := by
          refine ih _ ?_
          intro k' t' d' hmem' e' hmem2
          exact h k' t' d' (List.mem_cons_of_mem _ hmem') e'
            (removeVariablesEntry_sub reg k e true _ hmem2)
        simp [removeDeletedVariables, ht, hl,
          removeVariablesEntry_silent reg k e true he, hrec]
      | none =>
        have hrec : (removeDeletedVariables reg rest).2 = [] := by
          refine ih _ ?_
          intro k' t' d' hmem' e' hmem2
          exact h k' t' d' (List.mem_cons_of_mem _ hmem') e' hmem2
        simp [removeDeletedVariables, ht, hl, hrec]
    · have hrec : (removeDeletedVariables reg rest).2 = [] := by
        refine ih _ ?_
        intro k' t' d' hmem' e' hmem2
        exact h k' t' d' (List.mem_cons_of_mem _ hmem') e' hmem2
      simp [removeDeletedVariables, ht, hrec]

theorem libPhaseTwo_trace (libs : List (LibKey × LibEntry)) (changes : List FileEvent)
    (hnd : (libs.map Prod.fst).Nodup) :
    (libPhaseTwo (scanLibraries libs changes).1 (scanLibraries libs changes).2.1).2
      = if libs.any (fun p => libAffected p.2 changes) then
          [DispatchAction.emitted .library (affectedLibDocs libs changes)]
        else [] := by
  by_cases he : (scanLibraries libs changes).2.1 = []
  · have hany := (scanLibraries_tuples_empty libs changes).mp he
    simp [libPhaseTwo, he, hany]
  · have hany : libs.any (fun p => libAffected p.2 changes) = true := by
      by_contra hc
      exact he ((scanLibraries_tuples_empty libs changes).mpr (by simpa using hc))
    have hempty : (scanLibraries libs changes).2.1.isEmpty = false := by
      cases hx : (scanLibraries libs changes).2.1 with
      | nil => exact absurd hx he
      | cons a l => rfl
    have hsil := removeDeletedLibraries_silent _ _ (scanLibraries_clean libs changes hnd)
    simp [libPhaseTwo, hempty, hsil, hany, scanLibraries_payload]

theorem resPhaseTwo_trace (ress : List (ResKey × ResEntry)) (changes : List FileEvent)
    (hnd : (ress.map Prod.fst).Nodup) :
    (resPhaseTwo (scanResources ress changes).1 (scanResources ress changes).2.1).2
      = if ress.any (fun p => resAffected p.2 changes) then
          [DispatchAction.emitted .resource (affectedResDocs ress changes)]
        else [] := by
  by_cases he : (scanResources ress changes).2.1 = []
  · have hany := (scanResources_tuples_empty ress changes).mp he
    simp [resPhaseTwo, he, hany]
  · have hany : ress.any (fun p => resAffected p.2 changes) = true := by
      by_contra hc
      exact he ((scanResources_tuples_empty ress changes).mpr (by simpa using hc))
    have hempty : (scanResources ress changes).2.1.isEmpty = false := by
      cases hx : (scanResources ress changes).2.1 with
      | nil => exact absurd hx he
      | cons a l => rfl
    have hsil := removeDeletedResources_silent _ _ (scanResources_clean ress changes hnd)
    simp [resPhaseTwo, hempty, hsil, hany, scanResources_payload]

theorem varPhaseTwo_trace (vars : List (VarKey × VarEntry)) (changes : List FileEvent)
    (hnd : (vars.map Prod.fst).Nodup) :
    (varPhaseTwo (scanVariables vars changes).1 (scanVariables vars changes).2.1).2
      = if vars.any (fun p => varAffected p.2 changes) then
          [DispatchAction.emitted .variables (affectedVarDocs vars changes)]
        else [] := by
  by_cases he : (scanVariables vars changes).2.1 = []
  · have hany := (scanVariables_tuples_empty vars changes).mp he
    simp [varPhaseTwo, he, hany]
  · have hany : vars.any (fun p => varAffected p.2 changes) = true := by
      by_contra hc
      exact he ((scanVariables_tuples_empty vars changes).mpr (by simpa using hc))
    have hempty : (scanVariables vars changes).2.1.isEmpty = false := by
      cases hx : (scanVariables vars changes).2.1 with
      | nil => exact absurd hx he
      | cons a l => rfl
    have hsil := removeDeletedVariables_silent _ _ (scanVariables_clean vars changes hnd)
    simp [varPhaseTwo, hempty, hsil, hany, scanVariables_payload]

/-- C8: for every file-event batch, all matching-entry invalidations of all
three kinds happen strictly before any of the three coarse change events
is emitted, and each emitted event carries exactly the docs the affected
entries held before their invalidation (per kind, in registry order,
omitting entries that held no doc). -/
theorem C8_invalidations_before_emissions (st : ManagerState) (changes : List FileEvent)
    (hL : (st.libraries.map Prod.fst).Nodup)
    (hR : (st.resources.map Prod.fst).Nodup)
    (hV : (st.variablesEntries.map Prod.fst).Nodup) :
    ∃ t1,
      (didChangeWatchedFiles st changes).2
          = t1
            ++ ((if st.libraries.any (fun p => libAffected p.2 changes) then
                  [DispatchAction.emitted .library (affectedLibDocs st.libraries changes)]
                 else [])
              ++ (if st.resources.any (fun p => resAffected p.2 changes) then
                  [DispatchAction.emitted .resource (affectedResDocs st.resources changes)]
                 else [])
              ++ (if st.variablesEntries.any (fun p => varAffected p.2 changes) then
                  [DispatchAction.emitted .variables (affectedVarDocs st.variablesEntries changes)]
                 else []))
        ∧ ∀ a ∈ t1, ∃ kind nm, a = DispatchAction.invalidated kind nm := by
  refine ⟨(scanLibraries st.libraries changes).2.2 ++ (scanResources st.resources changes).2.2
      ++ (scanVariables st.variablesEntries changes).2.2, ?_, ?_⟩
  · show (scanLibraries st.libraries changes).2.2 ++ (scanResources st.resources changes).2.2
        ++ (scanVariables st.variablesEntries changes).2.2
        ++ (libPhaseTwo (scanLibraries st.libraries changes).1
              (scanLibraries st.libraries changes).2.1).2
        ++ (resPhaseTwo (scanResources st.resources changes).1
              (scanResources st.resources changes).2.1).2
        ++ (varPhaseTwo (scanVariables st.variablesEntries changes).1
              (scanVariables st.variablesEntries changes).2.1).2
      = _
    rw [libPhaseTwo_trace st.libraries changes hL, resPhaseTwo_trace st.resources changes hR,
      varPhaseTwo_trace st.variablesEntries changes hV]
    simp [List.append_assoc]
  · intro a ha
    rcases List.mem_append.mp ha with h1 | h2
    · rcases List.mem_append.mp h1 with h3 | h4
      · obtain ⟨nm, hnm⟩ := scanLibraries_trace_inv st.libraries changes a h3
        exact ⟨.library, nm, hnm⟩
      · obtain ⟨nm, hnm⟩ := scanResources_trace_inv st.resources changes a h4
        exact ⟨.resource, nm, hnm⟩
    · obtain ⟨nm, hnm⟩ := scanVariables_trace_inv st.variablesEntries changes a h2
      exact ⟨.variables, nm, hnm⟩

/-- Registries used in the C8 witness: one entry of each kind. -/
def c8State : ManagerState :=
  { libraries := [(⟨"/w/L.py", []⟩, c3LibEntry)],
    resources := [(⟨"/w/a.resource"⟩, c3ResEntry)],
    variablesEntries := [(⟨"/w/v.py", []⟩, c3VarEntry)] }

/-- Batch used in the C8 witness: one deletion below the watched root. -/
def c8Changes : List FileEvent :=
  [⟨"file:///w/a.resource", .deleted⟩]

/-- Witness for C8 at a concrete one-deletion batch. -/
theorem C8_invalidations_before_emissions_witness :
    ∃ t1,
      (didChangeWatchedFiles c8State c8Changes).2
          = t1
            ++ ((if c8State.libraries.any (fun p => libAffected p.2 c8Changes) then
                  [DispatchAction.emitted .library (affectedLibDocs c8State.libraries c8Changes)]
                 else [])
              ++ (if c8State.resources.any (fun p => resAffected p.2 c8Changes) then
                  [DispatchAction.emitted .resource (affectedResDocs c8State.resources c8Changes)]
                 else [])
              ++ (if c8State.variablesEntries.any (fun p => varAffected p.2 c8Changes) then
                  [DispatchAction.emitted .variables
                    (affectedVarDocs c8State.variablesEntries c8Changes)]
                 else []))
        ∧ ∀ a ∈ t1, ∃ kind nm, a = DispatchAction.invalidated kind nm :=
  C8_invalidations_before_emissions c8State c8Changes (by decide) (by decide) (by decide)

/-- One pass of `ImportsManager.__resource_document_changed` over the
resource registry for one changed document: every valid entry whose
document uri equals the changed document's uri has its doc (re)computed
from the namespace, is invalidated, and contributes that doc. -/
def resDocScan (ress : List (ResKey × ResEntry)) (docUri : String) :
    List (ResKey × ResEntry) × List LibraryDoc × List DispatchAction :=
  match ress with
  | [] => ([], [], [])
  | (k, e) :: rest =>
    let r := resDocScan rest docUri
    if e.document = some docUri then
      ((k, resInvalidate e) :: r.1,
       (e.doc.getD e.namespaceDoc) :: r.2.1,
       DispatchAction.invalidated .resource k.name :: r.2.2)
    else ((k, e) :: r.1, r.2.1, r.2.2)

/-- The tail of `__resource_document_changed`: emit one `resources_changed`
event when any doc was collected. -/
def resourceDocumentChangedOne (ress : List (ResKey × ResEntry)) (docUri : String) :
    List (ResKey × ResEntry) × List DispatchAction :=
  let s := resDocScan ress docUri
  (s.1, s.2.2 ++ (if s.2.1.isEmpty then [] else [DispatchAction.emitted .resource s.2.1]))

/-- Debounce state of the imports manager: the set of pending changed
documents and whether the shared one-second timer is running. -/
structure DebounceState where
  pendingDocs : List String
  timerRunning : Bool
  deriving DecidableEq, Repr

/-- Events driving the debounce machine: a `did_change` for a resource
document, and the expiry of the shared timer. -/
inductive DebEvent
  | docChanged (uri : String)
  | timerExpiry
  deriving DecidableEq, Repr

/-- The debounce interval of the source, in seconds. -/
def RESOURCE_DOCUMENT_CHANGED_TIMER_INTERVAL : Nat := 1

/-- Model of `ImportsManager.resource_document_changed`: a document already
pending is ignored (the timer is not reset); otherwise the running timer is
cancelled, the document recorded, and a fresh timer started. -/
def resourceDocumentChangedArrival (st : DebounceState) (uri : String) : DebounceState :=
  if uri ∈ st.pendingDocs then st
  else { pendingDocs := st.pendingDocs ++ [uri], timerRunning := true }

/-- Model of `ImportsManager.__resource_documents_changed` applied at timer
expiry: take and clear the pending set, then reconcile each document in
turn. -/
def processPendingDocs : List String → List (ResKey × ResEntry) →
    List (ResKey × ResEntry) × List DispatchAction
  | [], ress => (ress, [])
  | u :: us, ress =>
    let one := resourceDocumentChangedOne ress u
    let r := processPendingDocs us one.1
    (r.1, one.2 ++ r.2)

/-- One step of the debounce machine. -/
def debStep (s : DebounceState × List (ResKey × ResEntry)) :
    DebEvent → (DebounceState × List (ResKey × ResEntry)) × List DispatchAction
  | .docChanged u => ((resourceDocumentChangedArrival s.1 u, s.2), [])
  | .timerExpiry =>
    let p := processPendingDocs s.1.pendingDocs s.2
    ((⟨[], false⟩, p.1), p.2)

/-- Run of the debounce machine over an event sequence, collecting the
action trace. -/
def debRun : (DebounceState × List (ResKey × ResEntry)) → List DebEvent →
    (DebounceState × List (ResKey × ResEntry)) × List DispatchAction
  | s, [] => (s, [])
  | s, ev :: evs =>
    let st := debStep s ev
    let r := debRun st.1 evs
    (r.1, st.2 ++ r.2)

/-- The docs that a reconciliation of `docUri` would collect: one per valid
entry loaded from that uri, each the entry's current doc or the one
recomputed from its namespace. -/
def affectedDocsByUri (ress : List (ResKey × ResEntry)) (docUri : String) : List LibraryDoc :=
  ress.filterMap (fun p =>
    if p.2.document = some docUri then some (p.2.doc.getD p.2.namespaceDoc) else none)

/-- C9 counterexample: a burst of two `did_change` events on a document
with no matching resource entry emits no `resources_changed` at all, not
exactly one as the claim states. -/
theorem C9_counterexample :
    (debRun (⟨[], false⟩, ([] : List (ResKey × ResEntry)))
        [DebEvent.docChanged "/w/a.resource", DebEvent.docChanged "/w/a.resource",
         DebEvent.timerExpiry]).2 = [] := by
  decide

theorem resDocScan_docs (ress : List (ResKey × ResEntry)) (docUri : String) :
    (resDocScan ress docUri).2.1 = affectedDocsByUri ress docUri := by
  induction ress with
  | nil => rfl
  | cons p rest ih =>
    cases p with
    | mk k e =>
      simp only [resDocScan, affectedDocsByUri, List.filterMap_cons]
      by_cases hm : e.document = some docUri
      · simp only [hm, if_pos rfl, List.filterMap_cons]
        unfold affectedDocsByUri at ih
        simp [hm, ih]
      · simp only [if_neg hm]
        unfold affectedDocsByUri at ih
        simp [hm, ih]

theorem resDocScan_trace_inv (ress : List (ResKey × ResEntry)) (docUri : String) :
    ∀ a ∈ (resDocScan ress docUri).2.2, ∃ nm, a = DispatchAction.invalidated .resource nm := by
  induction ress with
  | nil => intro a ha; cases ha
  | cons p rest ih =>
    cases p with
    | mk k e =>
      intro a ha
      simp only [resDocScan] at ha
      by_cases hm : e.document = some docUri
      · rw [if_pos hm] at ha
        rcases List.mem_cons.mp ha with h | h
        · exact ⟨k.name, h⟩
        · exact ih a h
      · rw [if_neg hm] at ha
        exact ih a ha

theorem debRun_same_doc_arrivals (ress : List (ResKey × ResEntry)) (uri : String) :
    ∀ m, debRun (⟨[uri], true⟩, ress) (List.replicate m (DebEvent.docChanged uri))
      = ((⟨[uri], true⟩, ress), []) := by
  intro m
  induction m with
  | zero => rfl
  | succ m ih =>
    simp only [List.replicate_succ, debRun, debStep, resourceDocumentChangedArrival]
    simp [ih]

theorem debRun_burst_arrivals (ress : List (ResKey × ResEntry)) (uri : String) (n : Nat)
    (hn : 0 < n) :
    debRun (⟨[], false⟩, ress) (List.replicate n (DebEvent.docChanged uri))
      = ((⟨[uri], true⟩, ress), []) := by
  cases n with
  | zero => cases hn
  | succ m =>
    simp only [List.replicate_succ, debRun, debStep, resourceDocumentChangedArrival]
    simp [debRun_same_doc_arrivals]

theorem debRun_append (s : DebounceState × List (ResKey × ResEntry))
    (evs1 evs2 : List DebEvent) :
    debRun s (evs1 ++ evs2)
      = ((debRun (debRun s evs1).1 evs2).1,
         (debRun s evs1).2 ++ (debRun (debRun s evs1).1 evs2).2) := by
  induction evs1 generalizing s with
  | nil => simp [debRun]
  | cons ev evs ih =>
    simp only [List.cons_append, debRun, List.append_eq]
    rw [ih]
    simp [List.append_assoc]

/-- C9 amended: a burst of `did_change` events on the same resource
document, from an idle debouncer, leads to all actions at timer expiry (the
arrivals themselves emit nothing); when the document matches at least one
valid resource entry, exactly one `resources_changed` is emitted, after the
matching entries' invalidations, carrying each such entry's most recent
doc; with no matching entry, nothing is emitted. -/
theorem C9_debounce_single_emission (n : Nat) (hn : 0 < n)
    (ress : List (ResKey × ResEntry)) (uri : String)
    (haff : affectedDocsByUri ress uri ≠ []) :
    (debRun (⟨[], false⟩, ress) (List.replicate n (DebEvent.docChanged uri))).2 = []
      ∧ ∃ t1,
        (debRun (⟨[], false⟩, ress)
            (List.replicate n (DebEvent.docChanged uri) ++ [DebEvent.timerExpiry])).2
          = t1 ++ [DispatchAction.emitted .resource (affectedDocsByUri ress uri)]
        ∧ ∀ a ∈ t1, ∃ nm, a = DispatchAction.invalidated .resource nm := by
  have hburst := debRun_burst_arrivals ress uri n hn
  refine ⟨by rw [hburst], ?_⟩
  refine ⟨(resDocScan ress uri).2.2, ?_, resDocScan_trace_inv ress uri⟩
  rw [debRun_append, hburst]
  have hdocs := resDocScan_docs ress uri
  have hne : (resDocScan ress uri).2.1.isEmpty = false := by
    rw [hdocs]
    cases hx : affectedDocsByUri ress uri with
    | nil => exact absurd hx haff
    | cons a l => rfl
  simp only [debRun, debStep, processPendingDocs, resourceDocumentChangedOne, List.nil_append,
    List.append_nil]
  rw [hne]
  simp [hdocs]

/-- Registry used in the C9 witness: one valid resource entry loaded from
the changed document. -/
def c9Ress : List (ResKey × ResEntry) :=
  [(⟨"/w/a.resource"⟩, c3ResEntry)]

/-- Witness for the amended C9 at a concrete two-event burst. -/
theorem C9_debounce_single_emission_witness :
    (debRun (⟨[], false⟩, c9Ress)
        (List.replicate 2 (DebEvent.docChanged "/w/a.resource"))).2 = []
      ∧ ∃ t1,
        (debRun (⟨[], false⟩, c9Ress)
            (List.replicate 2 (DebEvent.docChanged "/w/a.resource") ++ [DebEvent.timerExpiry])).2
          = t1 ++ [DispatchAction.emitted .resource (affectedDocsByUri c9Ress "/w/a.resource")]
        ∧ ∀ a ∈ t1, ∃ nm, a = DispatchAction.invalidated .resource nm :=
  C9_debounce_single_emission 2 (by decide) c9Ress "/w/a.resource" (by decide)

/-- Modelled from the spec: `SimpleLRUCache` (the class itself is not in
the provided sources) — a bounded most-recently-used-first memoization
table, default capacity 256, whose `get(func, *args)` returns the cached
value for the argument tuple or computes, stores, and returns it. -/
structure SimpleLRUCacheModel (κ δ : Type) where
  maxItems : Nat
  entries : List (κ × δ)
  deriving DecidableEq, Repr

/-- Modelled from the spec: `SimpleLRUCache.get` — on a hit the entry moves
to the front and the cached value is returned without calling `func`; on a
miss `func` is applied to the argument tuple, the result stored (evicting
the least recently used entry at capacity) and returned.  The third
component records whether `func` was called. -/
def lruGet {κ δ : Type} [BEq κ] (c : SimpleLRUCacheModel κ δ) (f : κ → δ) (k : κ) :
    δ × SimpleLRUCacheModel κ δ × Bool :=
  match c.entries.lookup k with
  | some v =>
    (v, { c with entries := (k, v) :: c.entries.filter (fun p => !(p.1 == k)) }, false)
  | none =>
    let v := f k
    let es := (k, v) :: c.entries
    (v, { c with entries := if c.maxItems < es.length then es.dropLast else es }, true)

/-- Collaborators of `ImportsManager.__find_variables` (they live outside
the provided sources): the variable-sigil test, the external
`find_variables` search, the robot version gate, the path-likeness test
and the `find_file_ex` resolver. -/
structure FindVariablesEnv where
  containsVariable : String → Bool
  findVariablesExt : String → String → Bool → Option (List (String × String)) → String
  robotVersionAtLeast5 : Bool
  isVariablesByPath : String → Bool
  findFileEx : String → String → String

/-- Model of `ImportsManager.__find_variables` (the underlying resolver):
with `resolve_variables` and a variable sigil in the name, delegate to the
external search (passing the command-line variables only when
`resolve_command_line_vars` is set); otherwise resolve path-like names via
`find_file_ex` (on robot ≥ 5.0 only path-like names; before 5.0 always). -/
def findVariablesUnderlying (env : FindVariablesEnv) (name base_dir : String)
    (vdict : Option (List (String × String)))
    (resolve_variables resolve_command_line_vars : Bool) : String :=
  if resolve_variables && env.containsVariable name then
    env.findVariablesExt name base_dir resolve_command_line_vars vdict
  else if env.robotVersionAtLeast5 then
    if env.isVariablesByPath name then env.findFileEx name base_dir else name
  else env.findFileEx name base_dir

/-- The memoization key type of `find_variables`. -/
abbrev FindVariablesKey : Type :=
  String × String × Option (List (String × String)) × Bool

/-- Model of `ImportsManager.find_variables`: a `SimpleLRUCache.get` call
whose argument tuple is `(name, base_dir, vdict, resolve_command_line_vars)` — the `resolve_variables` flag is not part of
the tuple, and on a miss the tuple's fourth component is passed positionally
into the `resolve_variables` parameter of `__find_variables` (so
`resolve_command_line_vars` keeps its default `True` there), exactly as the
source's positional call does. -/
def findVariablesCached (env : FindVariablesEnv)
    (cache : SimpleLRUCacheModel FindVariablesKey String) (name base_dir : String)
    (vdict : Option (List (String × String)))
    (resolve_variables resolve_command_line_vars : Bool) :
    String × SimpleLRUCacheModel FindVariablesKey String × Bool :=
  lruGet cache
    (fun k => findVariablesUnderlying env k.1 k.2.1 k.2.2.1 k.2.2.2 true)
    (name, base_dir, vdict, resolve_command_line_vars)

/-- Environment showing the resolver really depends on the
`resolve_variables` flag. -/
def c10Env : FindVariablesEnv :=
  { containsVariable := fun _ => true,
    findVariablesExt := fun _ _ _ _ => "/resolved/from/search.py",
    robotVersionAtLeast5 := true,
    isVariablesByPath := fun _ => false,
    findFileEx := fun n _ => n }

theorem lruGet_miss {κ δ : Type} [BEq κ] (c : SimpleLRUCacheModel κ δ) (f : κ → δ) (k : κ)
    (h : c.entries.lookup k = none) :
    lruGet c f k
      = (f k,
         { c with entries :=
             if c.maxItems < ((k, f k) :: c.entries).length then ((k, f k) :: c.entries).dropLast
             else (k, f k) :: c.entries },
         true) := by
  unfold lruGet
  rw [h]

theorem lruGet_hit {κ δ : Type} [BEq κ] (c : SimpleLRUCacheModel κ δ) (f : κ → δ) (k : κ)
    (v : δ) (h : c.entries.lookup k = some v) :
    lruGet c f k
      = (v, { c with entries := (k, v) :: c.entries.filter (fun p => !(p.1 == k)) }, false) := by
  unfold lruGet
  rw [h]

/-- C10: the memoization key of `find_variables` omits `resolve_variables`:
a second call with the same name, base dir, variables dict and
`resolve_command_line_vars` but a different `resolve_variables` value
returns the first call's cached result without invoking the resolver —
although the underlying resolver genuinely differs between the two flag
values. -/
theorem C10_find_variables_key_omits_flag (env : FindVariablesEnv)
    (cache : SimpleLRUCacheModel FindVariablesKey String) (name base_dir : String)
    (vdict : Option (List (String × String))) (rv1 rv2 rclv : Bool)
    (hmiss : cache.entries.lookup (name, base_dir, vdict, rclv) = none)
    (hcap : cache.entries.length < cache.maxItems) :
    ((findVariablesCached env cache name base_dir vdict rv1 rclv).2.2 = true
      ∧ (findVariablesCached env
          (findVariablesCached env cache name base_dir vdict rv1 rclv).2.1
          name base_dir vdict rv2 rclv).2.2 = false
      ∧ (findVariablesCached env
          (findVariablesCached env cache name base_dir vdict rv1 rclv).2.1
          name base_dir vdict rv2 rclv).1
        = (findVariablesCached env cache name base_dir vdict rv1 rclv).1)
    ∧ findVariablesUnderlying c10Env "${V}.py" "." none true true
        ≠ findVariablesUnderlying c10Env "${V}.py" "." none false true := by
  constructor
  · have hfirst : findVariablesCached env cache name base_dir vdict rv1 rclv
        = (findVariablesUnderlying env name base_dir vdict rclv true,
           { cache with entries :=
               ((name, base_dir, vdict, rclv),
                findVariablesUnderlying env name base_dir vdict rclv true) :: cache.entries },
           true) := by
      unfold findVariablesCached
      rw [lruGet_miss _ _ _ hmiss]
      have hlen : ¬ cache.maxItems < cache.entries.length + 1 := by omega
      simp [hlen]
    have hlook : (((name, base_dir, vdict, rclv),
          findVariablesUnderlying env name base_dir vdict rclv true) :: cache.entries).lookup
            (name, base_dir, vdict, rclv)
        = some (findVariablesUnderlying env name base_dir vdict rclv true) := by
      simp [List.lookup]
    have hsecond := lruGet_hit
        { cache with entries :=
            ((name, base_dir, vdict, rclv),
             findVariablesUnderlying env name base_dir vdict rclv true) :: cache.entries }
        (fun (k : FindVariablesKey) => findVariablesUnderlying env k.1 k.2.1 k.2.2.1 k.2.2.2 true)
        (name, base_dir, vdict, rclv)
        (findVariablesUnderlying env name base_dir vdict rclv true) hlook
    refine ⟨by rw [hfirst], ?_, ?_⟩
    · rw [hfirst]
      unfold findVariablesCached
      rw [hsecond]
    · rw [hfirst]
      unfold findVariablesCached
      rw [hsecond]
  · decide

/-- Empty variables-file cache at the default capacity 256. -/
def c10Cache : SimpleLRUCacheModel FindVariablesKey String :=
  { maxItems := 256, entries := [] }

/-- Witness for C10 at a concrete cold cache and a variable-sigil name. -/
theorem C10_find_variables_key_omits_flag_witness :
    ((findVariablesCached c10Env c10Cache "${V}.py" "." none true true).2.2 = true
      ∧ (findVariablesCached c10Env
          (findVariablesCached c10Env c10Cache "${V}.py" "." none true true).2.1
          "${V}.py" "." none false true).2.2 = false
      ∧ (findVariablesCached c10Env
          (findVariablesCached c10Env c10Cache "${V}.py" "." none true true).2.1
          "${V}.py" "." none false true).1
        = (findVariablesCached c10Env c10Cache "${V}.py" "." none true true).1)
    ∧ findVariablesUnderlying c10Env "${V}.py" "." none true true
        ≠ findVariablesUnderlying c10Env "${V}.py" "." none false true :=
  C10_find_variables_key_omits_flag c10Env c10Cache "${V}.py" "." none true false true
    (by decide) (by decide)
